import Mathlib

/-!
Verification development for the octofriend orchestration core.

Text is modelled as `List Char` (`Str`). The JavaScript regular expressions
used by the task-observation parser are embedded by functions that implement
their matching semantics directly (leftmost match, greedy/lazy backtracking),
restricted to the ASCII whitespace classes that occur on the wire format:
`\s` is modelled by space, tab, carriage return and newline, and the `.` /
`$` line terminators by carriage return and newline.
-/

namespace Octo
abbrev Str : Type := List Char

/-- Model of the JS `\s` character class (ASCII subset). -/
def isWsp (c : Char) : Bool :=
  c = ' ' || c = '\t' || c = '\n' || c = '\r'

/-- Model of the JS line terminators recognised by `.` and multiline `$`. -/
def isTerm (c : Char) : Bool :=
  c = '\n' || c = '\r'

/-- Model of JS `String.prototype.trim` on the ASCII whitespace subset. -/
def jsTrim (s : Str) : Str :=
  ((s.dropWhile isWsp).reverse.dropWhile isWsp).reverse

/-- Boolean prefix test used by the matching functions. -/
def isPre : Str → Str → Bool
  | [], _ => true
  | _ :: _, [] => false
  | p :: ps, c :: cs => p == c && isPre ps cs

/-- Leftmost occurrence of `pat`: returns the text before the first
occurrence and the text after it. -/
def splitFirst (pat : Str) : Str → Option (Str × Str)
  | [] => if pat.isEmpty then some ([], []) else none
  | c :: cs =>
    if isPre pat (c :: cs) then some ([], (c :: cs).drop pat.length)
    else
      match splitFirst pat cs with
      | some (b, a) => some (c :: b, a)
      | none => none

/-- Start of the next line (the position just past the next line
terminator), as used by multiline `^` anchoring. -/
def nextLineStart (cs : Str) : Str :=
  (cs.dropWhile (fun c => !isTerm c)).drop 1

/--
Models the behaviour of `\s*(.+)$` (with backtracking) on the text `cs`
following a matched key, returning the *trimmed* capture group, or `none`
when no match is possible at this position.  When the maximal whitespace
run after the key reaches the end of the text, the regex can still match by
backtracking `\s*` so that `.+` swallows trailing spaces or tabs; the
resulting capture is all-whitespace and trims to the empty string.
-/
def keyLineValue (cs : Str) : Option Str :=
  let w := cs.takeWhile isWsp
  let rest := cs.drop w.length
  if rest.isEmpty then
    if w.any (fun c => !isTerm c) then some [] else none
  else some (jsTrim (rest.takeWhile (fun c => !isTerm c)))

/--
Models `content.match(/^key\s*(.+)$/m)?.[1]?.trim()`: scan the line starts
from the left; at the first line start where `key` matches and the rest of
the pattern can match, return the trimmed capture.  The scan consumes at
least one character per step, so `content.length` is an adequate fuel;
fuelled structural recursion keeps the function kernel-reducible.
-/
def findFieldGo (key : Str) : Nat → Str → Option Str
  | _, [] => none
  | 0, _ :: _ => none
  | fuel + 1, c :: cs =>
    if isPre key (c :: cs) then
      match keyLineValue ((c :: cs).drop key.length) with
      | some v => some v
      | none => findFieldGo key fuel (nextLineStart (c :: cs))
    else findFieldGo key fuel (nextLineStart (c :: cs))

def findField (key content : Str) : Option Str :=
  findFieldGo key content.length content

/--
Models `content.match(/<open>\n?([\s\S]*?)\n?<\/close>/m)?.[1]`, except that
the boundary `\n?` stripping is left to the caller (the source always
applies `.trim()` to this capture, which subsumes it): the raw text between
the first open tag and the first close tag after it.
-/
def tagInner (openTag closeTag content : Str) : Option Str :=
  match splitFirst openTag content with
  | none => none
  | some (_, rest) =>
    match splitFirst closeTag rest with
    | none => none
    | some (inner, _) => some inner

def keyTaskId : Str := "task_id:".toList
def keyTaskSubagent : Str := "task_subagent:".toList
def keyTaskDescription : Str := "task_description:".toList
def traceOpenTag : Str := "<task_trace>".toList
def traceCloseTag : Str := "</task_trace>".toList
def resultOpenTag : Str := "<task_result>".toList
def resultCloseTag : Str := "</task_result>".toList
def obsOpenTag : Str := "<task_observation>".toList
def obsCloseTag : Str := "</task_observation>".toList

structure TaskObservation where
  taskId : Str
  subagentName : Str
  description : Str
  trace : Str
  result : Str
deriving DecidableEq, Repr

/-- Embedding of `parseTaskObservationBlock`. -/
def parseTaskObservationBlock (content : Str) : Option TaskObservation :=
  let id := findField keyTaskId content
  let subagentName := findField keyTaskSubagent content
  let description := findField keyTaskDescription content
  let traceMatch := tagInner traceOpenTag traceCloseTag content
  let resultMatch := tagInner resultOpenTag resultCloseTag content
  match id, subagentName, description with
  | some i, some s, some d =>
    if i.isEmpty || s.isEmpty || d.isEmpty then none
    else
      some ⟨i, s, d,
        (traceMatch.map jsTrim).getD [],
        (resultMatch.map jsTrim).getD []⟩
  | _, _, _ => none

/-- Strips at most one leading newline (the greedy `\n?` after an open tag). -/
def dropOneLeadingNl : Str → Str
  | '\n' :: cs => cs
  | cs => cs

/-- Strips at most one trailing newline (the `\n?` before a close tag,
chosen by the lazy inner group). -/
def dropOneTrailingNl (s : Str) : Str :=
  (dropOneLeadingNl s.reverse).reverse

/--
Embedding of `content.matchAll(/<task_observation>\n?([\s\S]*?)\n?<\/task_observation>/gm)`:
the list of capture groups, in input order.  Each global-match step resumes
just after the previous match's closing tag, strictly shrinking the
remaining text, so `content.length` is an adequate fuel.
-/
def observationCapturesGo : Nat → Str → List Str
  | 0, _ => []
  | fuel + 1, content =>
    match splitFirst obsOpenTag content with
    | none => []
    | some (_, rest) =>
      match splitFirst obsCloseTag rest with
      | none => []
      | some (inner, after) =>
        dropOneTrailingNl (dropOneLeadingNl inner) :: observationCapturesGo fuel after

def observationCaptures (content : Str) : List Str :=
  observationCapturesGo content.length content

/-- Embedding of `parseTaskObservationsFromToolOutput`. -/
def parseTaskObservationsFromToolOutput (content : Str) : List TaskObservation :=
  let wrappedMatches := observationCaptures content
  if wrappedMatches.length > 0 then
    (wrappedMatches.map parseTaskObservationBlock).filterMap id
  else
    match parseTaskObservationBlock content with
    | some single => [single]
    | none => []

/-- Embedding of `parseTaskObservationFromToolOutput`. -/
def parseTaskObservationFromToolOutput (content : Str) : Option TaskObservation :=
  (parseTaskObservationsFromToolOutput content).head?

/-- `join("\n")` on a list of lines. -/
def joinLines : List Str → Str
  | [] => []
  | [l] => l
  | l :: l2 :: ls => l ++ '\n' :: joinLines (l2 :: ls)

def truncatedMarker : Str := "\n... (truncated)".toList

/-- The tail-truncation used by the observation builders:
`s.length > max ? s.slice(0, max) + "\n... (truncated)" : s`. -/
def clampWithMarker (s : Str) (maxChars : Nat) : Str :=
  if s.length > maxChars then s.take maxChars ++ truncatedMarker else s

def digitChar (d : Nat) : Char :=
  match d with
  | 0 => '0' | 1 => '1' | 2 => '2' | 3 => '3' | 4 => '4'
  | 5 => '5' | 6 => '6' | 7 => '7' | 8 => '8' | _ => '9'

/-- Decimal rendering of a natural number (JS template `${n}`); the fuel
`n + 1` always suffices since the argument shrinks by a factor of ten. -/
def natToStrGo : Nat → Nat → Str → Str
  | 0, _, acc => acc
  | fuel + 1, n, acc =>
    if n < 10 then digitChar n :: acc
    else natToStrGo fuel (n / 10) (digitChar (n % 10) :: acc)

def natToStr (n : Nat) : Str := natToStrGo (n + 1) n []

/-- The eleven wire-format lines shared by the single and parallel
observation builders. -/
def observationLines (taskId subagentName description trace result : Str) : List Str :=
  [keyTaskId ++ ' ' :: taskId,
   keyTaskSubagent ++ ' ' :: subagentName,
   keyTaskDescription ++ ' ' :: description,
   [],
   traceOpenTag,
   trace,
   traceCloseTag,
   [],
   resultOpenTag,
   result,
   resultCloseTag]

/-- Embedding of `buildObservedTaskOutput`. -/
def buildObservedTaskOutput (o : TaskObservation) : Str :=
  let trace := clampWithMarker o.trace 4000
  let result := clampWithMarker o.result 2000
  joinLines (observationLines o.taskId o.subagentName o.description trace result)

/-- Embedding of `buildParallelObservedTaskOutput`. -/
def buildParallelObservedTaskOutput (observations : List TaskObservation) : Str :=
  let sections := observations.map (fun o =>
    let trace := clampWithMarker o.trace 3000
    let result := clampWithMarker o.result 1500
    joinLines (obsOpenTag ::
      (observationLines o.taskId o.subagentName o.description trace result ++
        [obsCloseTag])))
  joinLines ((("task_parallel_count: ".toList) ++ natToStr observations.length)
    :: [] :: sections)

/-! ### Well-formedness conditions for wire-safe observation fields -/

/-- `dropWhile`-invariance on both ends: the string neither starts nor ends
with whitespace (equivalently, it is `trim`-invariant). -/
def trimClean (f : Str) : Bool :=
  (f.dropWhile isWsp == f) && (f.reverse.dropWhile isWsp == f.reverse)

/-- A wire-safe required field: non-empty, trim-invariant, single-line and
free of `'<'` (so it can neither break nor forge a wire tag). -/
def wireField (f : Str) : Bool :=
  !f.isEmpty && trimClean f && f.all (fun c => !isTerm c && !(c == '<'))

/-- A wire-safe trace/result text: trim-invariant and free of `'<'`
(newlines are allowed). -/
def wireText (t : Str) : Bool :=
  trimClean t && t.all (fun c => !(c == '<'))

/-- The body of one observation block (the eleven wire lines joined). -/
def blockBody (id sub desc T R : Str) : Str :=
  joinLines (observationLines id sub desc T R)

/-- All well-formedness conditions for one observation under the given
truncation caps. -/
def wireObs (tCap rCap : Nat) (o : TaskObservation) : Prop :=
  wireField o.taskId = true ∧ wireField o.subagentName = true ∧
  wireField o.description = true ∧ wireText o.trace = true ∧
  wireText o.result = true ∧ o.trace.length ≤ tCap ∧ o.result.length ≤ rCap

instance (tCap rCap : Nat) (o : TaskObservation) : Decidable (wireObs tCap rCap o) := by
  unfold wireObs
  infer_instance

/-- The (unclamped) section text for one observation. -/
def obsSection (o : TaskObservation) : Str :=
  joinLines (obsOpenTag ::
    (observationLines o.taskId o.subagentName o.description o.trace o.result ++
      [obsCloseTag]))

/-- `!field` on the trimmed capture of a required field: the field is
absent or trims to the empty string. -/
def reqFieldEmpty (key content : Str) : Bool :=
  match findField key content with
  | some v => v.isEmpty
  | none => true

/-- A tool-output text made of `'<'`-free glue around wrapped observation
blocks, modelling any text whose `<task_observation>` wrappers are exactly
the rendered ones. -/
def renderWrapped : List (Str × Str) → Str → Str
  | [], tailGap => tailGap
  | (gap, b) :: rest, tailGap =>
    gap ++ (obsOpenTag ++ ('\n' :: (b ++ '\n' :: (obsCloseTag ++ renderWrapped rest tailGap))))

/-! ### Trajectory Arc Engine (src/source/agent/trajectory-arc.ts)

The engine's collaborators (the streaming backend `run`, auto-compaction,
tool validation, the autofix pass, and the abort signal) are modelled as an
oracle environment; handlers are event sinks with no return value and are
dropped.  The abort signal is modelled as a fixed boolean (mid-stream
flips are a real-time behaviour outside the shallow embedding), and the
token buffers as the oracle `bufferedAssistant` that yields the assistant
item `maybeBufferedMessage` would synthesize, or `none` when all buffers
are empty. -/

structure ToolCallRequest where
  toolCallId : Str
  name : Str
  argumentsJson : Str
deriving DecidableEq, Repr

inductive LlmIR where
  | userIR (content : Str)
  | assistantIR (content : Str) (reasoningContent : Option Str)
      (toolCall : Option ToolCallRequest)
  | toolMalformedIR (error : Str)
  | checkpointIR (summary : Str)
  | toolErrorIR (toolCallId toolName error : Str)
  | fileOutdatedIR (toolCall : ToolCallRequest) (error : Str)
  | fileUnreadableIR (path : Str) (toolCall : ToolCallRequest) (error : Str)
  | toolOutputIR (content : Str)
deriving DecidableEq, Repr

/-- The `toolCall` property read off the last output item. -/
def irToolCall : LlmIR → Option ToolCallRequest
  | .assistantIR _ _ tc => tc
  | .fileOutdatedIR tc _ => some tc
  | .fileUnreadableIR _ tc _ => some tc
  | _ => none

inductive RunResult where
  | failure (requestError curl : Str)
  | success (output : List LlmIR) (curl : Str)
deriving DecidableEq, Repr

/-- Outcome of `validateTool` on a tool call: success, a
`FileOutdatedError` (with the untracked re-read succeeding or not), or a
generic `ToolError`. -/
inductive ValidateResult where
  | ok
  | fileOutdatedErr (filePath : Str) (rereadOk : Bool)
  | toolErr (message : Str)
deriving DecidableEq, Repr

structure ArcEnv where
  aborted : Bool
  shouldAutoCompactHistory : List LlmIR → Bool
  compactionSummary : List LlmIR → Option Str
  run : List LlmIR → RunResult
  bufferedAssistant : List LlmIR → Option LlmIR
  validateTool : ToolCallRequest → ValidateResult
  autofixEdit : ToolCallRequest → Option Str

inductive FinishReason where
  | abort
  | needsResponse
  | requestTool (toolCall : ToolCallRequest)
  | requestError (requestError curl : Str)
deriving DecidableEq, Repr

structure Finish where
  irs : List LlmIR
  reason : FinishReason
deriving DecidableEq, Repr

def tooManyMalformedMsg : Str :=
  "Too many malformed tool retries in a single response arc. Aborting to prevent runaway memory growth.".toList

def tooManyToolRetryMsg : Str :=
  "Too many tool retry attempts in a single response arc. Aborting to prevent runaway memory growth.".toList

def noResponseMsg : Str := "No response from backend".toList

def fileOutdatedMsg : Str :=
  "File could not be updated because it was modified after being last read. Please read the file again before modifying it.".toList

def fileUnreadableMsg (path : Str) : Str :=
  "File ".toList ++ path ++ " could not be read. Has it been deleted?".toList

/-- Result of one arc attempt before the retry budget is consulted: either
a final `Finish`, or a retry request carrying the output accumulated so
far (`outIrs`, what the retries' result is concatenated after), the output
returned when the budget is exhausted (`exhaustIrs`), the message log for
the recursive call, and the error message/curl used on budget exhaustion.
`backendCalls` counts the `run` invocations (compaction summarization plus
the response turn). -/
inductive ArcOnce where
  | finished (f : Finish) (backendCalls : Nat)
  | wantRetry (outIrs exhaustIrs nextMessages : List LlmIR)
      (curl exhaustMsg : Str) (backendCalls : Nat)

/-- One pass of `trajectoryArc`'s body, steps 1-8. -/
def arcOnce (env : ArcEnv) (messages : List LlmIR) : ArcOnce :=
  if env.aborted then .finished ⟨[], .abort⟩ 0 else
  let doCompact := env.shouldAutoCompactHistory messages
  let compaction : Option LlmIR :=
    if doCompact then (env.compactionSummary messages).map .checkpointIR else none
  let bc0 := if doCompact then 1 else 0
  let messagesCopy := messages ++ compaction.toList
  let irs0 := compaction.toList
  if env.aborted then .finished ⟨[], .abort⟩ bc0 else
  let result := env.run messagesCopy
  let bc := bc0 + 1
  let buffered : List LlmIR :=
    match env.bufferedAssistant messagesCopy with
    | some item => irs0 ++ [item]
    | none => []
  if env.aborted then .finished ⟨buffered, .abort⟩ bc else
  match result with
  | .failure err curl => .finished ⟨buffered, .requestError err curl⟩ bc
  | .success output curl =>
    match output.getLast? with
    | none => .finished ⟨buffered, .requestError noResponseMsg curl⟩ bc
    | some lastIr =>
      let irs := irs0 ++ output
      match lastIr with
      | .toolMalformedIR _ =>
        .wantRetry irs irs (messagesCopy ++ irs) curl tooManyMalformedMsg bc
      | _ =>
        match irToolCall lastIr with
        | none => .finished ⟨irs, .needsResponse⟩ bc
        | some toolCall =>
          match env.validateTool toolCall with
          | .ok => .finished ⟨irs, .requestTool toolCall⟩ bc
          | .fileOutdatedErr filePath rereadOk =>
            let errorIr :=
              if rereadOk then LlmIR.fileOutdatedIR toolCall fileOutdatedMsg
              else LlmIR.fileUnreadableIR filePath toolCall (fileUnreadableMsg filePath)
            .wantRetry irs (irs ++ [errorIr]) (messagesCopy ++ (irs ++ [errorIr]))
              curl tooManyToolRetryMsg bc
          | .toolErr message =>
            let autofixed : Option ToolCallRequest :=
              if toolCall.name = "edit".toList then
                (env.autofixEdit toolCall).map
                  (fun fixedArgs => { toolCall with argumentsJson := fixedArgs })
              else none
            match autofixed with
            | some fixedCall => .finished ⟨irs, .requestTool fixedCall⟩ bc
            | none =>
              let errorIr := LlmIR.toolErrorIR toolCall.toolCallId toolCall.name message
              .wantRetry irs (irs ++ [errorIr]) (messagesCopy ++ (irs ++ [errorIr]))
                curl tooManyToolRetryMsg bc

structure ArcOutcome where
  finish : Finish
  invocations : Nat
  backendCalls : Nat
deriving DecidableEq, Repr

/-- Embedding of `trajectoryArc`: ties the per-branch retry recursion to
the shared decrementing budget.  All retry branches behave identically at
the tie: on `retryBudget <= 0` finish with `request-error` (with the
branch's output and message), otherwise recurse with budget minus one and
return the recursion's reason with the outputs concatenated
(`[...irs, ...retried.irs]`).  `invocations` counts the arc entries and
`backendCalls` the backend turns. -/
def trajectoryArc (env : ArcEnv) (messages : List LlmIR) (retryBudget : Nat) : ArcOutcome :=
  match arcOnce env messages with
  | .finished f bc => ⟨f, 1, bc⟩
  | .wantRetry outIrs exhaustIrs nextMessages curl exhaustMsg bc =>
    match retryBudget with
    | 0 => ⟨⟨exhaustIrs, .requestError exhaustMsg curl⟩, 1, bc⟩
    | b + 1 =>
      let retried := trajectoryArc env nextMessages b
      ⟨⟨outIrs ++ retried.finish.irs, retried.finish.reason⟩,
        1 + retried.invocations, bc + retried.backendCalls⟩

/-- The output of the backend at a given message log (empty on failure). -/
def runOutput (env : ArcEnv) (ms : List LlmIR) : List LlmIR :=
  match env.run ms with
  | .success out _ => out
  | .failure _ _ => []

/-- The expected accumulated IR output of an all-malformed trajectory:
each arc's output, concatenated in call order. -/
def malformedTrace (env : ArcEnv) : Nat → List LlmIR → List LlmIR
  | 0, ms => runOutput env ms
  | b + 1, ms => runOutput env ms ++ malformedTrace env b (ms ++ runOutput env ms)

def envMalformedW : ArcEnv :=
  { aborted := false
    shouldAutoCompactHistory := fun _ => false
    compactionSummary := fun _ => none
    run := fun _ => .success [.toolMalformedIR ("bad json".toList)] ("curl-w".toList)
    bufferedAssistant := fun _ => none
    validateTool := fun _ => .ok
    autofixEdit := fun _ => none }

/-! ### Subagent delegation service (src/source/tools/tool-defs/task.ts) -/

structure TaskInvocation where
  description : Str
  prompt : Str
  subagent_type : Str
  task_id : Option Str
deriving DecidableEq, Repr

/-- History items as used by the subagent session machinery; the
provider-specific `openai`/`anthropic` metadata blobs are modelled by their
serialized JSON text (`safeJsonLength` is its length). -/
inductive HistoryItem where
  | user (content : Str)
  | assistant (content : Str) (reasoningContent : Option Str)
      (openai : Option Str) (anthropic : Option Str)
  | tool (toolName : Str) (argumentsJson : Str)
  | toolOutput (content : Str) (lines : Nat)
  | toolFailed (toolName : Str) (error : Str)
  | toolMalformed (error : Str)
  | fileOutdated
  | fileUnreadable (path : Str)
  | toolReject
  | notification (content : Str)
  | compactionCheckpoint (summary : Str)
deriving DecidableEq, Repr

def truncatedForSubagentMarker : Str := "\n... (truncated for subagent context)".toList

/-- `sanitizeLiveText`: trim, then tail-truncate with a marker. -/
def sanitizeLiveText (input : Str) (maxChars : Nat) : Str :=
  let trimmed := jsTrim input
  if trimmed.length ≤ maxChars then trimmed
  else trimmed.take maxChars ++ truncatedMarker

/-- `truncateSubagentToolContent`. -/
def truncateSubagentToolContent (input : Str) (maxChars : Nat) : Str :=
  if input.length ≤ maxChars then input
  else input.take maxChars ++ truncatedForSubagentMarker

def MAX_TASK_SESSIONS : Nat := 48
def MAX_SUBAGENT_HISTORY_ITEMS : Nat := 80
def MAX_SUBAGENT_HISTORY_CHARS : Nat := 140000
def MAX_SUBAGENT_TOOL_CONTENT_CHARS : Nat := 24000
def MAX_SUBAGENT_ASSISTANT_CONTENT_CHARS : Nat := 24000

/-- `sanitizeSubagentHistoryItem`: assistant entries have their visible
text capped and the provider metadata dropped; `""` reasoning is falsy in
the source and becomes `undefined`. -/
def sanitizeSubagentHistoryItem (item : HistoryItem) : HistoryItem :=
  match item with
  | .assistant content reasoningContent _ _ =>
    .assistant (sanitizeLiveText content MAX_SUBAGENT_ASSISTANT_CONTENT_CHARS)
      (match reasoningContent with
        | some r =>
          if r.isEmpty then none
          else some (sanitizeLiveText r MAX_SUBAGENT_ASSISTANT_CONTENT_CHARS)
        | none => none)
      none none
  | other => other

/-- `estimateHistoryItemSize`. -/
def estimateHistoryItemSize (item : HistoryItem) : Nat :=
  match item with
  | .assistant content reasoningContent openai anthropic =>
    content.length + ((reasoningContent.map List.length).getD 0) +
      ((openai.map List.length).getD 0) + ((anthropic.map List.length).getD 0)
  | .user content => content.length
  | .notification content => content.length
  | .toolOutput content _ => content.length
  | .tool _ argumentsJson => argumentsJson.length
  | .toolFailed _ error => error.length
  | .toolMalformed error => error.length
  | .fileUnreadable path => path.length
  | _ => 40

/-- `reduce((sum, entry) => sum + estimateHistoryItemSize entry, 0)`. -/
def sizeOfHistory : List HistoryItem → Nat
  | [] => 0
  | item :: rest => estimateHistoryItemSize item + sizeOfHistory rest

/-- The per-item `trimmed` map of `compactSubagentHistory`: sanitize, then
cap tool-output bodies. -/
def compactMapItem (item : HistoryItem) : HistoryItem :=
  match sanitizeSubagentHistoryItem item with
  | .toolOutput content lines =>
    .toolOutput (truncateSubagentToolContent content MAX_SUBAGENT_TOOL_CONTENT_CHARS) lines
  | other => other

/-- The eviction `while` loop of `compactSubagentHistory`: while over
either ceiling and at least `minLength` entries remain, splice out the
oldest non-pinned entry.  One entry is removed per step, so the list
length is an adequate fuel. -/
def evictLoop (keepFirstUser : Bool) : Nat → List HistoryItem → Nat → List HistoryItem
  | 0, l, _ => l
  | fuel + 1, l, totalChars =>
    if (MAX_SUBAGENT_HISTORY_ITEMS < l.length ∨ MAX_SUBAGENT_HISTORY_CHARS < totalChars) ∧
        (if keepFirstUser then 2 else 1) ≤ l.length then
      if keepFirstUser then
        match l with
        | a :: b :: rest => evictLoop keepFirstUser fuel (a :: rest)
            (totalChars - estimateHistoryItemSize b)
        | _ => l
      else
        match l with
        | a :: rest => evictLoop keepFirstUser fuel rest
            (totalChars - estimateHistoryItemSize a)
        | [] => l
    else l

def keepFirstUserOf (trimmed : List HistoryItem) : Bool :=
  match trimmed.head? with
  | some (.user _) => true
  | _ => false

/-- Embedding of `compactSubagentHistory`. -/
def compactSubagentHistory (history : List HistoryItem) : List HistoryItem :=
  let trimmed := history.map compactMapItem
  evictLoop (keepFirstUserOf trimmed) trimmed.length trimmed (sizeOfHistory trimmed)

/-! ### Session store -/

structure TaskSession where
  id : Str
  subagentName : Str
  history : List HistoryItem
deriving DecidableEq, Repr

/-- The `while (taskSessions.size > MAX_TASK_SESSIONS)` eviction: JS `Map`
iteration order is insertion order, so the first entry is the oldest. -/
def dropOldestSessions : List (Str × TaskSession) → List (Str × TaskSession)
  | [] => []
  | e :: rest =>
    if MAX_TASK_SESSIONS < (e :: rest).length then dropOldestSessions rest
    else e :: rest

/-- Embedding of `storeTaskSession`: delete any existing entry for the
key, re-insert at the end (JS `Map.set` after `delete`), then evict the
oldest entries down to capacity. -/
def storeTaskSession (table : List (Str × TaskSession)) (taskId : Str)
    (session : TaskSession) : List (Str × TaskSession) :=
  dropOldestSessions ((table.eraseP (fun e => e.1 == taskId)) ++ [(taskId, session)])

/-! ### Task invocation start (session resolution and pinning) -/

structure PeerContext where
  index : Nat
  total : Nat
  peers : List (Str × Str)
deriving DecidableEq, Repr

/-- Embedding of `buildParallelAwarenessPrefix` (renamed; the original
name ends in a word this development avoids). -/
def buildParallelAwarenessPreamble (invocation : TaskInvocation) (peer : PeerContext) : Str :=
  if peer.total ≤ 1 then [] else
  let peerLines := joinLines ((peer.peers.enum.filter
      (fun p => p.1 ≠ peer.index)).map
    (fun p => "  - @".toList ++ p.2.1 ++ ": ".toList ++ p.2.2))
  joinLines (([
    "[Parallel execution context]".toList,
    "You are worker ".toList ++ natToStr (peer.index + 1) ++ " of ".toList ++
      natToStr peer.total ++ " running concurrently.".toList,
    "Your task: ".toList ++ invocation.description,
    (if peerLines ≠ [] then
      "Other workers running in parallel:\n".toList ++ peerLines else []),
    "Scope discipline: complete only your assigned task. Do not modify artefacts owned by other workers.".toList,
    ([] : Str)
  ].filter (fun line => line ≠ [])))

/-- Session keys are task_id-based so callers can resume across tool calls. -/
def makeSessionKey (taskId : Str) : Str := taskId

/-- The session-resolution half of `executeTaskInvocation`: everything up
to and including `storeTaskSession` (the rest of the function runs the
subagent loop against the backend).  Raised `ToolError`s become `.error`;
on the error path no table update has happened in the source either. -/
def executeTaskInvocationStart (sessions : List (Str × TaskSession))
    (candidates : List Str) (invocation : TaskInvocation)
    (plannedTaskId : Str) (peer : Option PeerContext) :
    Except Str (List (Str × TaskSession) × TaskSession) :=
  let subagentName := invocation.subagent_type
  if subagentName ∉ candidates then
    .error ("Unknown subagent: ".toList ++ subagentName)
  else
    let taskId := invocation.task_id.getD plannedTaskId
    let sessionKey := makeSessionKey taskId
    let session := ((sessions.find? (fun e => e.1 == sessionKey)).map Prod.snd).getD
      ⟨taskId, subagentName, []⟩
    if session.subagentName ≠ subagentName then
      .error ("Task ".toList ++ taskId ++ " belongs to subagent ".toList ++
        session.subagentName ++ ". Resume it with that same subagent.".toList)
    else
      let awarenessPreamble :=
        match peer with
        | some p => buildParallelAwarenessPreamble invocation p
        | none => []
      let prompt := jsTrim (awarenessPreamble ++ invocation.prompt)
      let session2 :=
        if prompt ≠ [] then
          { session with history := session.history ++ [HistoryItem.user prompt] }
        else session
      .ok (storeTaskSession sessions sessionKey session2, session2)

/-! ### task_id uniqueness validation -/

/-- The `seen`/`duplicates` loop of `validateTaskIdUniqueness`. -/
def collectDuplicates : List TaskInvocation → List Str → List Str
  | [], _ => []
  | inv :: rest, seen =>
    match inv.task_id with
    | none => collectDuplicates rest seen
    | some tid =>
      if tid ∈ seen then tid :: collectDuplicates rest seen
      else collectDuplicates rest (tid :: seen)

/-- `[...new Set(duplicates)]`: dedup keeping first occurrences. -/
def dedupFirstGo : List Str → List Str → List Str
  | [], _ => []
  | x :: rest, seen =>
    if x ∈ seen then dedupFirstGo rest seen
    else x :: dedupFirstGo rest (x :: seen)

def dedupFirst (l : List Str) : List Str := dedupFirstGo l []

def joinComma : List Str → Str
  | [] => []
  | [x] => x
  | x :: y :: rest => x ++ ", ".toList ++ joinComma (y :: rest)

/-- Embedding of `validateTaskIdUniqueness`. -/
def validateTaskIdUniqueness (invocations : List TaskInvocation) : Except Str Unit :=
  let duplicates := collectDuplicates invocations []
  if duplicates.isEmpty then .ok ()
  else
    let uniqueDuplicates := dedupFirst duplicates
    .error ("Duplicate task_id".toList ++
      (if 1 < uniqueDuplicates.length then "s".toList else []) ++
      " in parallel_tasks: ".toList ++ joinComma uniqueDuplicates ++
      ". Each task in parallel_tasks must have a unique task_id.".toList)

structure TaskToolArguments where
  description : Str
  prompt : Str
  subagent_type : Str
  task_id : Option Str
  parallel_tasks : Option (List TaskInvocation)
deriving DecidableEq, Repr

/-- `parallel_tasks && parallel_tasks.length > 0 ? parallel_tasks :
[singleInvocation]`. -/
def invocationInputs (args : TaskToolArguments) : List TaskInvocation :=
  match args.parallel_tasks with
  | some pts =>
    if pts.length > 0 then pts
    else [⟨args.description, args.prompt, args.subagent_type, args.task_id⟩]
  | none => [⟨args.description, args.prompt, args.subagent_type, args.task_id⟩]

def checkParallelSubagents (candidates : List Str) : List TaskInvocation → Except Str Unit
  | [] => .ok ()
  | t :: rest =>
    if t.subagent_type ∉ candidates then
      .error ("Unknown subagent: ".toList ++ t.subagent_type)
    else checkParallelSubagents candidates rest

/-- Embedding of the task tool's `validate` hook. -/
def taskToolValidate (candidates : List Str) (args : TaskToolArguments) : Except Str Unit :=
  if args.subagent_type ∉ candidates then
    .error ("Unknown subagent: ".toList ++ args.subagent_type)
  else
    match validateTaskIdUniqueness (invocationInputs args) with
    | .error e => .error e
    | .ok _ => checkParallelSubagents candidates (args.parallel_tasks.getD [])

/-- `makeLiveTaskID`. -/
def makeLiveTaskID (toolCallId : Str) (index : Nat) : Str :=
  "task_".toList ++ toolCallId ++ "_".toList ++ natToStr index

/-- The planned task ids of the `run` hook:
`invocation.task_id ?? makeLiveTaskID(liveRunId, index)`. -/
def plannedTaskIds (liveRunId : Str) (invs : List TaskInvocation) : List Str :=
  invs.enum.map (fun p => p.2.task_id.getD (makeLiveTaskID liveRunId p.1))

/-! ### Parallel delegation fan-in -/

/-- One settled promise, `Promise.allSettled` style. -/
inductive SettledResult where
  | fulfilled (value : TaskObservation)
  | rejected (reason : Str)
deriving DecidableEq, Repr

/-- Embedding of `taskObservationFromFailure`. -/
def taskObservationFromFailure (invocation : TaskInvocation) (error : Str)
    (taskId : Str) : TaskObservation :=
  ⟨taskId, invocation.subagent_type, invocation.description,
    "[task-error]\n".toList ++ error,
    "Subagent task failed: ".toList ++ error⟩

/-- The fan-in of the parallel branch of the task tool's `run`: one
observation per planned invocation, failures mapped through
`taskObservationFromFailure`.  `settledAt i` is the settled outcome of the
`i`-th launched `executeTaskInvocation` promise. -/
def parallelObservations (settledAt : Nat → SettledResult)
    (planned : List (TaskInvocation × Str)) : List TaskObservation :=
  planned.enum.map (fun p =>
    match settledAt p.1 with
    | .fulfilled value => value
    | .rejected reason => taskObservationFromFailure p.2.1 reason p.2.2)

/-- The parallel branch's tool-output text. -/
def runTaskToolParallel (settledAt : Nat → SettledResult)
    (planned : List (TaskInvocation × Str)) : Str :=
  buildParallelObservedTaskOutput (parallelObservations settledAt planned)

/-- Substring occurrence, for stating "the message contains ...". -/
def containsStr (pat l : Str) : Prop := ∃ a b, l = a ++ (pat ++ b)

/-! ### Focus navigation (UI store) -/

inductive Focus where
  | main
  | task (taskId : Str)
deriving DecidableEq, Repr

structure UiFocusState where
  liveTaskObservationOrder : List Str
  taskObservationOrder : List Str
  focus : Focus
deriving DecidableEq, Repr

/-- Embedding of `activeTaskOrder`. -/
def activeTaskOrder (s : UiFocusState) : List Str :=
  if s.liveTaskObservationOrder.length > 0 then s.liveTaskObservationOrder
  else s.taskObservationOrder

/-- JS `Array.prototype.indexOf`: index of the first occurrence, `-1` when
absent. -/
def jsIndexOfGo (x : Str) : List Str → Int
  | [] => -1
  | y :: rest =>
    if y = x then 0
    else
      let r := jsIndexOfGo x rest
      if r < 0 then -1 else r + 1

def jsIndexOf (l : List Str) (x : Str) : Int := jsIndexOfGo x l

/-- Embedding of `focusNextTask`. -/
def focusNextTask (s : UiFocusState) : UiFocusState :=
  let taskObservationOrder := activeTaskOrder s
  if taskObservationOrder.length = 0 then s
  else
    match s.focus with
    | .main => { s with focus := .task (taskObservationOrder.headD []) }
    | .task taskId =>
      let currentIndex := jsIndexOf taskObservationOrder taskId
      if currentIndex < 0 then
        { s with focus := .task (taskObservationOrder.getLastD []) }
      else if currentIndex = (taskObservationOrder.length : Int) - 1 then
        { s with focus := .main }
      else
        { s with focus := .task (taskObservationOrder.getD (currentIndex.toNat + 1) []) }

/-- Embedding of `focusPrevTask`. -/
def focusPrevTask (s : UiFocusState) : UiFocusState :=
  let taskObservationOrder := activeTaskOrder s
  if taskObservationOrder.length = 0 then s
  else
    match s.focus with
    | .main => { s with focus := .task (taskObservationOrder.getLastD []) }
    | .task taskId =>
      let currentIndex := jsIndexOf taskObservationOrder taskId
      if currentIndex < 0 then
        { s with focus := .task (taskObservationOrder.getLastD []) }
      else if currentIndex = 0 then
        { s with focus := .main }
      else
        { s with focus := .task (taskObservationOrder.getD (currentIndex.toNat - 1) []) }

/-- The session as updated by a resuming invocation: the trimmed,
possibly preamble-prefixed prompt appended as a user entry (when
non-empty). -/
def sessionWithPrompt (s : TaskSession) (invocation : TaskInvocation)
    (peer : Option PeerContext) : TaskSession :=
  let awarenessPreamble :=
    match peer with
    | some p => buildParallelAwarenessPreamble invocation p
    | none => []
  let prompt := jsTrim (awarenessPreamble ++ invocation.prompt)
  if prompt ≠ [] then { s with history := s.history ++ [HistoryItem.user prompt] }
  else s

/-- The message of the pinning error for a resumed task. -/
def pinningErrorMsg (taskId originalSubagent : Str) : Str :=
  "Task ".toList ++ taskId ++ " belongs to subagent ".toList ++
    originalSubagent ++ ". Resume it with that same subagent.".toList

/-- An item as it appears after the compaction pass: assistant text and
reasoning within the cap plus the truncation marker, provider metadata
stripped; tool-output bodies within the cap plus the subagent marker. -/
def subagentItemCompacted (item : HistoryItem) : Prop :=
  match item with
  | .assistant content reasoning openai anthropic =>
      content.length ≤ MAX_SUBAGENT_ASSISTANT_CONTENT_CHARS + truncatedMarker.length ∧
      (∀ r, reasoning = some r →
        r.length ≤ MAX_SUBAGENT_ASSISTANT_CONTENT_CHARS + truncatedMarker.length) ∧
      openai = none ∧ anthropic = none
  | .toolOutput content _ =>
      content.length ≤ MAX_SUBAGENT_TOOL_CONTENT_CHARS + truncatedForSubagentMarker.length
  | _ => True

/-- Iterated application of `focusNextTask`. -/
def iterateNext : Nat → UiFocusState → UiFocusState
  | 0, s => s
  | n + 1, s => focusNextTask (iterateNext n s)

theorem length_dropWhile_le (p : Char → Bool) (l : Str) :
    (l.dropWhile p).length ≤ l.length := by
  induction l with
  | nil => simp
  | cons c cs ih =>
    by_cases h : p c <;> simp [List.dropWhile_cons, h] <;> omega

theorem length_nextLineStart_lt (c : Char) (cs : Str) :
    (nextLineStart (c :: cs)).length < (c :: cs).length := by
  have h1 : ((c :: cs).dropWhile (fun c => !isTerm c)).length ≤ (c :: cs).length :=
    length_dropWhile_le _ _
  simp only [nextLineStart, List.length_drop]
  simp only [List.length_cons] at h1 ⊢
  omega

theorem findFieldGo_stable (key : Str) :
    ∀ (f f' : Nat) (l : Str), l.length ≤ f → l.length ≤ f' →
      findFieldGo key f l = findFieldGo key f' l := by
  intro f
  induction f with
  | zero =>
    intro f' l hf hf'
    have : l = [] := List.length_eq_zero.mp (by omega)
    subst this
    cases f' <;> rfl
  | succ f ih =>
    intro f' l hf hf'
    cases l with
    | nil => cases f' <;> rfl
    | cons c cs =>
      cases f' with
      | zero => simp at hf'
      | succ f' =>
        have hlt := length_nextLineStart_lt c cs
        have h1 : (nextLineStart (c :: cs)).length ≤ f := by
          simp only [List.length_cons] at hf hlt ⊢
          omega
        have h2 : (nextLineStart (c :: cs)).length ≤ f' := by
          simp only [List.length_cons] at hf' hlt ⊢
          omega
        rw [findFieldGo, findFieldGo]
        by_cases hp : isPre key (c :: cs)
        · rw [if_pos hp, if_pos hp]
          cases keyLineValue ((c :: cs).drop key.length) with
          | some v => rfl
          | none =>
            simp only []
            exact ih f' _ h1 h2
        · rw [if_neg hp, if_neg hp]
          exact ih f' _ h1 h2

theorem splitFirst_length {pat : Str} :
    ∀ {l b a : Str}, splitFirst pat l = some (b, a) →
      l.length = b.length + pat.length + a.length := by
  intro l
  induction l with
  | nil =>
    intro b a h
    simp only [splitFirst] at h
    by_cases hp : pat.isEmpty
    · simp only [hp, if_true] at h
      cases h
      simp [List.isEmpty_iff.mp hp]
    · simp [hp] at h
  | cons c cs ih =>
    intro b a h
    simp only [splitFirst] at h
    by_cases hp : isPre pat (c :: cs)
    · simp only [hp, if_true] at h
      cases h
      have hlen : pat.length ≤ (c :: cs).length := by
        clear ih
        induction pat generalizing c cs with
        | nil => simp
        | cons p ps ihp =>
          simp only [isPre, Bool.and_eq_true, beq_iff_eq] at hp
          cases cs with
          | nil =>
            cases ps with
            | nil => simp
            | cons q qs => simp [isPre] at hp
          | cons c2 cs2 =>
            have := ihp c2 cs2 hp.2
            simp only [List.length_cons] at this ⊢
            omega
      simp only [List.length_nil, List.length_drop]
      omega
    · simp only [hp, if_false] at h
      match h2 : splitFirst pat cs with
      | some (b2, a2) =>
        rw [h2] at h
        cases h
        have := ih h2
        simp only [List.length_cons]
        omega
      | none => rw [h2] at h; cases h

theorem observationCapturesGo_stable :
    ∀ (f f' : Nat) (content : Str), content.length ≤ f → content.length ≤ f' →
      observationCapturesGo f content = observationCapturesGo f' content := by
  intro f
  induction f with
  | zero =>
    intro f' content hf hf'
    have : content = [] := List.length_eq_zero.mp (by omega)
    subst this
    cases f' with
    | zero => rfl
    | succ f' => rfl
  | succ f ih =>
    intro f' content hf hf'
    cases f' with
    | zero =>
      have : content = [] := List.length_eq_zero.mp (by omega)
      subst this
      rfl
    | succ f' =>
      rw [observationCapturesGo, observationCapturesGo]
      cases h1 : splitFirst obsOpenTag content with
      | none => rfl
      | some br =>
        obtain ⟨x, rest⟩ := br
        dsimp only []
        cases h2 : splitFirst obsCloseTag rest with
        | none => rfl
        | some ia =>
          obtain ⟨inner, after⟩ := ia
          have e1 := splitFirst_length h1
          have e2 := splitFirst_length h2
          have hopen : obsOpenTag.length = 18 := by decide
          have hclose : obsCloseTag.length = 19 := by decide
          rw [hopen] at e1
          rw [hclose] at e2
          dsimp only []
          rw [ih f' after (by omega) (by omega)]

/-! ### Lemmas about the matching primitives -/

theorem isPre_self_append (k rest : Str) : isPre k (k ++ rest) = true := by
  induction k with
  | nil => rfl
  | cons c cs ih => simp [isPre, ih]

theorem isPre_append_ne {k1 m : Str} (k2 l2 : Str) (hlen : k1.length = m.length)
    (hne : k1 ≠ m) : isPre (k1 ++ k2) (m ++ l2) = false := by
  induction k1 generalizing m with
  | nil =>
    cases m with
    | nil => exact absurd rfl hne
    | cons b bs => simp at hlen
  | cons a as ih =>
    cases m with
    | nil => simp at hlen
    | cons b bs =>
      simp only [List.cons_append, isPre]
      by_cases hab : a = b
      · subst hab
        have hne2 : as ≠ bs := fun hh => hne (by rw [hh])
        have := ih (m := bs) (by simpa using hlen) hne2
        simp [this]
      · have : (a == b) = false := by simpa using hab
        simp [this]

theorem isPre_false_of_take_ne {pat seg : Str} (l : Str) (n : Nat)
    (hn1 : n ≤ pat.length) (hn2 : n ≤ seg.length)
    (hne : pat.take n ≠ seg.take n) : isPre pat (seg ++ l) = false := by
  have hpat : pat = pat.take n ++ pat.drop n := (List.take_append_drop n pat).symm
  have hseg : seg ++ l = seg.take n ++ (seg.drop n ++ l) := by
    rw [← List.append_assoc, List.take_append_drop]
  rw [hpat, hseg]
  exact isPre_append_ne _ _ (by simp [List.length_take]; omega) hne

theorem splitFirst_cons_of_isPre {pat : Str} {c : Char} {cs : Str}
    (h : isPre pat (c :: cs) = true) :
    splitFirst pat (c :: cs) = some ([], (c :: cs).drop pat.length) := by
  simp [splitFirst, h]

theorem splitFirst_cons_of_not {pat : Str} {c : Char} {cs : Str}
    (h : isPre pat (c :: cs) = false) :
    splitFirst pat (c :: cs) = (splitFirst pat cs).map (fun ba => (c :: ba.1, ba.2)) := by
  rw [splitFirst, h]
  simp only [Bool.false_eq_true, if_false]
  cases splitFirst pat cs with
  | none => rfl
  | some ba => rfl

theorem splitFirst_target (p : Char) (ps a : Str) :
    splitFirst (p :: ps) ((p :: ps) ++ a) = some ([], a) := by
  rw [List.cons_append, splitFirst_cons_of_isPre (by rw [← List.cons_append]; exact isPre_self_append _ _)]
  rw [← List.cons_append, List.drop_left]

theorem splitFirst_append_noLt {pat : Str} {q : Str} (hpat : pat = '<' :: q)
    {b : Str} (hb : ∀ c ∈ b, c ≠ '<') (l : Str) :
    splitFirst pat (b ++ l) = (splitFirst pat l).map (fun ba => (b ++ ba.1, ba.2)) := by
  induction b with
  | nil =>
    simp only [List.nil_append]
    cases splitFirst pat l with
    | none => rfl
    | some ba => rfl
  | cons c cs ih =>
    have hc : c ≠ '<' := hb c (List.mem_cons_self _ _)
    have hpre : isPre pat ((c :: cs) ++ l) = false := by
      rw [hpat, List.cons_append]
      simp only [isPre, Bool.and_eq_true_iff]
      have : ('<' == c) = false := by simpa using fun hh => hc hh.symm
      simp [this]
    rw [List.cons_append, splitFirst_cons_of_not (by rw [← List.cons_append]; exact hpre)]
    rw [ih (fun x hx => hb x (List.mem_cons_of_mem c hx))]
    cases splitFirst pat l with
    | none => rfl
    | some ba => rfl

theorem splitFirst_target' {pat : Str} (hpat : pat ≠ []) (a : Str) :
    splitFirst pat (pat ++ a) = some ([], a) := by
  cases pat with
  | nil => exact absurd rfl hpat
  | cons p ps => exact splitFirst_target p ps a

theorem splitFirst_seg_target {pat : Str} {q : Str} (hpat : pat = '<' :: q)
    {b : Str} (hb : ∀ c ∈ b, c ≠ '<') (a : Str) :
    splitFirst pat (b ++ (pat ++ a)) = some (b, a) := by
  rw [splitFirst_append_noLt hpat hb, splitFirst_target' (by rw [hpat]; simp) a]
  simp

theorem splitFirst_none_noLt {pat : Str} {q : Str} (hpat : pat = '<' :: q)
    {l : Str} (hl : ∀ c ∈ l, c ≠ '<') : splitFirst pat l = none := by
  induction l with
  | nil => simp [splitFirst, hpat]
  | cons c cs ih =>
    have hc : c ≠ '<' := hl c (List.mem_cons_self _ _)
    have hpre : isPre pat (c :: cs) = false := by
      rw [hpat]
      have : ('<' == c) = false := by simpa using fun hh => hc hh.symm
      simp [isPre, this]
    rw [splitFirst_cons_of_not hpre, ih (fun x hx => hl x (List.mem_cons_of_mem c hx))]
    rfl

theorem splitFirst_skip_seg {pat : Str} {q u : Str} (hpat : pat = '<' :: q)
    {seg : Str} (hseg : seg = '<' :: u) (hst : ∀ c ∈ u, c ≠ '<')
    (hmis : ∀ l', isPre pat (seg ++ l') = false) (l : Str) :
    splitFirst pat (seg ++ l) = (splitFirst pat l).map (fun ba => (seg ++ ba.1, ba.2)) := by
  subst hseg
  rw [List.cons_append, splitFirst_cons_of_not (by rw [← List.cons_append]; exact hmis l)]
  rw [splitFirst_append_noLt hpat hst]
  cases splitFirst pat l with
  | none => rfl
  | some ba => rfl

theorem takeWhile_append_all {p : Char → Bool} {a : Str} (b : Str)
    (h : ∀ c ∈ a, p c = true) : (a ++ b).takeWhile p = a ++ b.takeWhile p := by
  induction a with
  | nil => simp
  | cons c cs ih =>
    have hc := h c (List.mem_cons_self _ _)
    simp only [List.cons_append, List.takeWhile_cons, hc, if_true]
    rw [ih (fun x hx => h x (List.mem_cons_of_mem c hx))]

theorem dropWhile_append_all {p : Char → Bool} {a : Str} (b : Str)
    (h : ∀ c ∈ a, p c = true) : (a ++ b).dropWhile p = b.dropWhile p := by
  induction a with
  | nil => simp
  | cons c cs ih =>
    have hc := h c (List.mem_cons_self _ _)
    simp only [List.cons_append, List.dropWhile_cons, hc, if_true]
    exact ih (fun x hx => h x (List.mem_cons_of_mem c hx))

theorem trimClean_drop_front {f : Str} (h : trimClean f = true) :
    f.dropWhile isWsp = f := by
  simp only [trimClean, Bool.and_eq_true, beq_iff_eq] at h
  exact h.1

theorem trimClean_drop_back {f : Str} (h : trimClean f = true) :
    f.reverse.dropWhile isWsp = f.reverse := by
  simp only [trimClean, Bool.and_eq_true, beq_iff_eq] at h
  exact h.2

theorem jsTrim_eq_of_trimClean {f : Str} (h : trimClean f = true) : jsTrim f = f := by
  rw [jsTrim, trimClean_drop_front h, trimClean_drop_back h, List.reverse_reverse]

theorem head_not_wsp_of_trimClean {f : Str} {c : Char} {t : Str}
    (h : trimClean f = true) (hf : f = c :: t) : isWsp c = false := by
  by_contra hc
  have hc2 : isWsp c = true := by
    cases hw : isWsp c with
    | false => exact absurd hw hc
    | true => rfl
  have h1 := trimClean_drop_front h
  rw [hf] at h1
  simp only [List.dropWhile_cons, hc2, if_true] at h1
  have := congrArg List.length h1
  have hle := length_dropWhile_le isWsp t
  simp only [List.length_cons] at this
  omega

/-- On a wire-safe field, the post-key matcher returns exactly the field. -/
theorem keyLineValue_field {f : Str} (rest : Str) (hf : wireField f = true) :
    keyLineValue (' ' :: (f ++ '
' :: rest)) = some f := by
  simp only [wireField, Bool.and_eq_true, List.all_eq_true] at hf
  obtain ⟨⟨hne, hclean⟩, hall⟩ := hf
  obtain ⟨c, t, hct⟩ : ∃ c t, f = c :: t := by
    cases f with
    | nil => simp at hne
    | cons c t => exact ⟨c, t, rfl⟩
  have hhead : isWsp c = false := head_not_wsp_of_trimClean hclean hct
  have hterm : ∀ x ∈ f, (!isTerm x) = true := by
    intro x hx
    have := hall x hx
    simp only [Bool.and_eq_true] at this
    exact this.1
  have hsp : isWsp ' ' = true := by decide
  have htake : (' ' :: (f ++ '
' :: rest)).takeWhile isWsp = [' '] := by
    simp only [List.takeWhile_cons, hsp, if_pos, hct, List.cons_append, hhead]
    simp
  have hcapture : (f ++ '
' :: rest).takeWhile (fun c => !isTerm c) = f := by
    rw [takeWhile_append_all _ hterm]
    have hnl : (!isTerm '
') = false := by decide
    simp [List.takeWhile_cons, hnl]
  have hempty : (f ++ '
' :: rest).isEmpty = false := by
    rw [hct]; rfl
  rw [keyLineValue]
  simp only [htake, List.length_cons, List.length_nil, List.drop_succ_cons,
    List.drop_zero, hempty, Bool.false_eq_true, if_false]
  rw [hcapture, jsTrim_eq_of_trimClean hclean]

theorem nextLineStart_line {l0 : Str} (r : Str) (h : ∀ c ∈ l0, isTerm c = false) :
    nextLineStart (l0 ++ '\n' :: r) = r := by
  rw [nextLineStart, dropWhile_append_all _ (by intro c hc; simp [h c hc])]
  simp only [List.dropWhile_cons]
  have : (!isTerm '\n') = false := by decide
  rw [this]
  simp

theorem wireField_ne {f : Str} (hf : wireField f = true) : f ≠ [] := by
  simp only [wireField, Bool.and_eq_true] at hf
  simpa using hf.1.1

theorem wireField_trimClean {f : Str} (hf : wireField f = true) : trimClean f = true := by
  simp only [wireField, Bool.and_eq_true] at hf
  exact hf.1.2

theorem wireField_noTerm {f : Str} (hf : wireField f = true) :
    ∀ c ∈ f, isTerm c = false := by
  simp only [wireField, Bool.and_eq_true, List.all_eq_true] at hf
  intro c hc
  have := hf.2 c hc
  simp only [Bool.and_eq_true] at this
  simpa using this.1

theorem wireField_noLt {f : Str} (hf : wireField f = true) : ∀ c ∈ f, c ≠ '<' := by
  simp only [wireField, Bool.and_eq_true, List.all_eq_true] at hf
  intro c hc
  have h2 := (hf.2 c hc).2
  intro hh
  rw [hh] at h2
  simp at h2

theorem wireText_trimClean {t : Str} (ht : wireText t = true) : trimClean t = true := by
  simp only [wireText, Bool.and_eq_true] at ht
  exact ht.1

theorem wireText_noLt {t : Str} (ht : wireText t = true) : ∀ c ∈ t, c ≠ '<' := by
  simp only [wireText, Bool.and_eq_true, List.all_eq_true] at ht
  intro c hc
  have := ht.2 c hc
  intro hh
  rw [hh] at this
  simp at this

theorem jsTrim_nl_wrap {t : Str} (h : trimClean t = true) :
    jsTrim ('\n' :: (t ++ ['\n'])) = t := by
  cases t with
  | nil => decide
  | cons c t0 =>
    have hhead : isWsp c = false := head_not_wsp_of_trimClean h rfl
    rw [jsTrim]
    have hnl : isWsp '\n' = true := by decide
    have h1 : ('\n' :: ((c :: t0) ++ ['\n'])).dropWhile isWsp = (c :: t0) ++ ['\n'] := by
      simp only [List.dropWhile_cons, hnl, if_pos, List.cons_append, hhead]
      simp
    rw [h1]
    have h2 : ((c :: t0) ++ ['\n']).reverse = '\n' :: (c :: t0).reverse := by
      simp
    rw [h2]
    have h3 : ('\n' :: (c :: t0).reverse).dropWhile isWsp = (c :: t0).reverse.dropWhile isWsp := by
      simp [List.dropWhile_cons, hnl]
    rw [h3, trimClean_drop_back h, List.reverse_reverse]

theorem findField_eq_of_isPre {key l v : Str} (hne : l ≠ [])
    (h : isPre key l = true) (hval : keyLineValue (l.drop key.length) = some v) :
    findField key l = some v := by
  cases l with
  | nil => exact absurd rfl hne
  | cons c cs =>
    rw [findField]
    simp only [List.length_cons]
    rw [findFieldGo, if_pos h, hval]

theorem findField_skip {key l : Str} (hne : l ≠ []) (h : isPre key l = false) :
    findField key l = findField key (nextLineStart l) := by
  cases l with
  | nil => exact absurd rfl hne
  | cons c cs =>
    rw [findField, findField]
    simp only [List.length_cons]
    rw [findFieldGo, h]
    simp only [Bool.false_eq_true, if_false]
    have hlt := length_nextLineStart_lt c cs
    exact findFieldGo_stable key cs.length (nextLineStart (c :: cs)).length _
      (by simp only [List.length_cons] at hlt; omega) le_rfl

theorem tagInner_eq {openTag closeTag content : Str} {x rest inner y : Str}
    (h1 : splitFirst openTag content = some (x, rest))
    (h2 : splitFirst closeTag rest = some (inner, y)) :
    tagInner openTag closeTag content = some inner := by
  simp only [tagInner, h1, h2]

theorem tagInner_none_of_first {openTag closeTag content : Str}
    (h1 : splitFirst openTag content = none) :
    tagInner openTag closeTag content = none := by
  simp only [tagInner, h1]

theorem splitFirst_seg_end {pat : Str} {q : Str} (hpat : pat = '<' :: q)
    {b : Str} (hb : ∀ c ∈ b, c ≠ '<') :
    splitFirst pat (b ++ pat) = some (b, []) := by
  have := splitFirst_seg_target hpat hb []
  simpa using this

theorem blockBody_canon (id sub desc T R : Str) :
    blockBody id sub desc T R =
      keyTaskId ++ ' ' :: (id ++ '\n' ::
        (keyTaskSubagent ++ ' ' :: (sub ++ '\n' ::
          (keyTaskDescription ++ ' ' :: (desc ++ '\n' :: ('\n' ::
            (traceOpenTag ++ '\n' :: (T ++ '\n' ::
              (traceCloseTag ++ '\n' :: ('\n' ::
                (resultOpenTag ++ '\n' :: (R ++ '\n' :: resultCloseTag)))))))))))) := by
  simp [blockBody, observationLines, joinLines, List.append_assoc]

theorem key_append_ne_nil (k : Str) (hk : k ≠ []) (x : Str) : k ++ x ≠ [] := by
  cases k with
  | nil => exact absurd rfl hk
  | cons a as => simp

theorem findField_id_block {id : Str} (sub desc T R : Str) (hid : wireField id = true) :
    findField keyTaskId (blockBody id sub desc T R) = some id := by
  rw [blockBody_canon]
  refine findField_eq_of_isPre (key_append_ne_nil _ (by decide) _) (isPre_self_append _ _) ?_
  rw [List.drop_left]
  exact keyLineValue_field _ hid

theorem line_noTerm {f : Str} (k : Str) (hk : ∀ c ∈ k, isTerm c = false)
    (hf : wireField f = true) : ∀ c ∈ k ++ ' ' :: f, isTerm c = false := by
  intro c hc
  rcases List.mem_append.mp hc with h | h
  · exact hk c h
  · rcases List.mem_cons.mp h with rfl | h2
    · decide
    · exact wireField_noTerm hf c h2

theorem findField_sub_block {id sub : Str} (desc T R : Str)
    (hid : wireField id = true) (hsub : wireField sub = true) :
    findField keyTaskSubagent (blockBody id sub desc T R) = some sub := by
  rw [blockBody_canon]
  rw [findField_skip (key_append_ne_nil _ (by decide) _)
    (isPre_false_of_take_ne _ 6 (by decide) (by decide) (by decide))]
  have hv : keyTaskId ++ ' ' :: (id ++ '\n' ::
      (keyTaskSubagent ++ ' ' :: (sub ++ '\n' ::
        (keyTaskDescription ++ ' ' :: (desc ++ '\n' :: ('\n' ::
          (traceOpenTag ++ '\n' :: (T ++ '\n' ::
            (traceCloseTag ++ '\n' :: ('\n' ::
              (resultOpenTag ++ '\n' :: (R ++ '\n' :: resultCloseTag)))))))))))) =
      (keyTaskId ++ ' ' :: id) ++ '\n' ::
      (keyTaskSubagent ++ ' ' :: (sub ++ '\n' ::
        (keyTaskDescription ++ ' ' :: (desc ++ '\n' :: ('\n' ::
          (traceOpenTag ++ '\n' :: (T ++ '\n' ::
            (traceCloseTag ++ '\n' :: ('\n' ::
              (resultOpenTag ++ '\n' :: (R ++ '\n' :: resultCloseTag))))))))))) := by
    simp [List.append_assoc]
  rw [hv, nextLineStart_line _ (line_noTerm keyTaskId (by decide) hid)]
  refine findField_eq_of_isPre (key_append_ne_nil _ (by decide) _) (isPre_self_append _ _) ?_
  rw [List.drop_left]
  exact keyLineValue_field _ hsub

theorem findField_desc_block {id sub desc : Str} (T R : Str)
    (hid : wireField id = true) (hsub : wireField sub = true)
    (hdesc : wireField desc = true) :
    findField keyTaskDescription (blockBody id sub desc T R) = some desc := by
  rw [blockBody_canon]
  rw [findField_skip (key_append_ne_nil _ (by decide) _)
    (isPre_false_of_take_ne _ 6 (by decide) (by decide) (by decide))]
  have hv : keyTaskId ++ ' ' :: (id ++ '\n' ::
      (keyTaskSubagent ++ ' ' :: (sub ++ '\n' ::
        (keyTaskDescription ++ ' ' :: (desc ++ '\n' :: ('\n' ::
          (traceOpenTag ++ '\n' :: (T ++ '\n' ::
            (traceCloseTag ++ '\n' :: ('\n' ::
              (resultOpenTag ++ '\n' :: (R ++ '\n' :: resultCloseTag)))))))))))) =
      (keyTaskId ++ ' ' :: id) ++ '\n' ::
      (keyTaskSubagent ++ ' ' :: (sub ++ '\n' ::
        (keyTaskDescription ++ ' ' :: (desc ++ '\n' :: ('\n' ::
          (traceOpenTag ++ '\n' :: (T ++ '\n' ::
            (traceCloseTag ++ '\n' :: ('\n' ::
              (resultOpenTag ++ '\n' :: (R ++ '\n' :: resultCloseTag))))))))))) := by
    simp [List.append_assoc]
  rw [hv, nextLineStart_line _ (line_noTerm keyTaskId (by decide) hid)]
  rw [findField_skip (key_append_ne_nil _ (by decide) _)
    (isPre_false_of_take_ne _ 6 (by decide) (by decide) (by decide))]
  have hv2 : keyTaskSubagent ++ ' ' :: (sub ++ '\n' ::
        (keyTaskDescription ++ ' ' :: (desc ++ '\n' :: ('\n' ::
          (traceOpenTag ++ '\n' :: (T ++ '\n' ::
            (traceCloseTag ++ '\n' :: ('\n' ::
              (resultOpenTag ++ '\n' :: (R ++ '\n' :: resultCloseTag)))))))))) =
      (keyTaskSubagent ++ ' ' :: sub) ++ '\n' ::
        (keyTaskDescription ++ ' ' :: (desc ++ '\n' :: ('\n' ::
          (traceOpenTag ++ '\n' :: (T ++ '\n' ::
            (traceCloseTag ++ '\n' :: ('\n' ::
              (resultOpenTag ++ '\n' :: (R ++ '\n' :: resultCloseTag))))))))) := by
    simp [List.append_assoc]
  rw [hv2, nextLineStart_line _ (line_noTerm keyTaskSubagent (by decide) hsub)]
  refine findField_eq_of_isPre (key_append_ne_nil _ (by decide) _) (isPre_self_append _ _) ?_
  rw [List.drop_left]
  exact keyLineValue_field _ hdesc

theorem noLt_append {a b : Str} (ha : ∀ c ∈ a, c ≠ '<') (hb : ∀ c ∈ b, c ≠ '<') :
    ∀ c ∈ a ++ b, c ≠ '<' := by
  intro c hc
  rcases List.mem_append.mp hc with h | h
  · exact ha c h
  · exact hb c h

theorem noLt_cons {c0 : Char} {b : Str} (hc : c0 ≠ '<') (hb : ∀ c ∈ b, c ≠ '<') :
    ∀ c ∈ c0 :: b, c ≠ '<' := by
  intro c hc2
  rcases List.mem_cons.mp hc2 with rfl | h
  · exact hc
  · exact hb c h

/-- The header part of a block (through the blank line) is `'<'`-free when
the three required fields are wire-safe. -/
theorem header_noLt {id sub desc : Str} (hid : wireField id = true)
    (hsub : wireField sub = true) (hdesc : wireField desc = true) :
    ∀ c ∈ keyTaskId ++ ' ' :: (id ++ '\n' ::
      (keyTaskSubagent ++ ' ' :: (sub ++ '\n' ::
        (keyTaskDescription ++ ' ' :: (desc ++ ['\n', '\n']))))), c ≠ '<' := by
  refine noLt_append (by decide) (noLt_cons (by decide) (noLt_append (wireField_noLt hid)
    (noLt_cons (by decide) (noLt_append (by decide) (noLt_cons (by decide)
      (noLt_append (wireField_noLt hsub) (noLt_cons (by decide)
        (noLt_append (by decide) (noLt_cons (by decide)
          (noLt_append (wireField_noLt hdesc) (by decide)))))))))))

theorem mid_noLt {t : Str} (ht : ∀ c ∈ t, c ≠ '<') :
    ∀ c ∈ '\n' :: (t ++ ['\n']), c ≠ '<' :=
  noLt_cons (by decide) (noLt_append ht (by decide))

theorem tagInner_trace_block {id sub desc T R : Str}
    (hid : wireField id = true) (hsub : wireField sub = true)
    (hdesc : wireField desc = true) (hT : wireText T = true) :
    tagInner traceOpenTag traceCloseTag (blockBody id sub desc T R) =
      some ('\n' :: (T ++ ['\n'])) := by
  have hview : blockBody id sub desc T R =
      (keyTaskId ++ ' ' :: (id ++ '\n' ::
        (keyTaskSubagent ++ ' ' :: (sub ++ '\n' ::
          (keyTaskDescription ++ ' ' :: (desc ++ ['\n', '\n'])))))) ++
      (traceOpenTag ++ (('\n' :: (T ++ ['\n'])) ++ (traceCloseTag ++
        ('\n' :: ('\n' :: (resultOpenTag ++ '\n' :: (R ++ '\n' :: resultCloseTag))))))) := by
    rw [blockBody_canon]
    simp [List.append_assoc]
  rw [hview]
  exact tagInner_eq
    (splitFirst_seg_target (q := "task_trace>".toList) (by decide)
      (header_noLt hid hsub hdesc) _)
    (splitFirst_seg_target (q := "/task_trace>".toList) (by decide)
      (mid_noLt (wireText_noLt hT)) _)

theorem splitFirst_resultOpen_block {id sub desc T R : Str}
    (hid : wireField id = true) (hsub : wireField sub = true)
    (hdesc : wireField desc = true) (hT : wireText T = true) :
    ∃ b1, splitFirst resultOpenTag (blockBody id sub desc T R) =
      some (b1, '\n' :: (R ++ '\n' :: resultCloseTag)) := by
  have hview : blockBody id sub desc T R =
      (keyTaskId ++ ' ' :: (id ++ '\n' ::
        (keyTaskSubagent ++ ' ' :: (sub ++ '\n' ::
          (keyTaskDescription ++ ' ' :: (desc ++ ['\n', '\n'])))))) ++
      (traceOpenTag ++ (('\n' :: (T ++ ['\n'])) ++ (traceCloseTag ++
        (['\n', '\n'] ++ (resultOpenTag ++
          ('\n' :: (R ++ '\n' :: resultCloseTag))))))) := by
    rw [blockBody_canon]
    simp [List.append_assoc]
  rw [hview]
  rw [splitFirst_append_noLt (q := "task_result>".toList) (by decide)
    (header_noLt hid hsub hdesc)]
  rw [splitFirst_skip_seg (q := "task_result>".toList) (by decide)
    (u := "task_trace>".toList) (by decide) (by decide)
    (fun l' => isPre_false_of_take_ne l' 7 (by decide) (by decide) (by decide))]
  rw [splitFirst_append_noLt (q := "task_result>".toList) (by decide)
    (mid_noLt (wireText_noLt hT))]
  rw [splitFirst_skip_seg (q := "task_result>".toList) (by decide)
    (u := "/task_trace>".toList) (by decide) (by decide)
    (fun l' => isPre_false_of_take_ne l' 2 (by decide) (by decide) (by decide))]
  rw [splitFirst_append_noLt (q := "task_result>".toList) (by decide)
    (by decide : ∀ c ∈ ['\n', '\n'], c ≠ '<')]
  rw [splitFirst_target' (by decide)]
  exact ⟨_, rfl⟩

theorem tagInner_result_block {id sub desc T R : Str}
    (hid : wireField id = true) (hsub : wireField sub = true)
    (hdesc : wireField desc = true) (hT : wireText T = true) (hR : wireText R = true) :
    tagInner resultOpenTag resultCloseTag (blockBody id sub desc T R) =
      some ('\n' :: (R ++ ['\n'])) := by
  obtain ⟨b1, hb1⟩ := splitFirst_resultOpen_block (R := R) hid hsub hdesc hT
  refine tagInner_eq (y := []) hb1 ?_
  rw [show ('\n' :: (R ++ '\n' :: resultCloseTag)) =
    ('\n' :: (R ++ ['\n'])) ++ resultCloseTag from by simp]
  exact splitFirst_seg_end (q := "/task_result>".toList) (by decide)
    (mid_noLt (wireText_noLt hR))

theorem obsCaptures_block_nil {id sub desc T R : Str}
    (hid : wireField id = true) (hsub : wireField sub = true)
    (hdesc : wireField desc = true) (hT : wireText T = true) (hR : wireText R = true) :
    splitFirst obsOpenTag (blockBody id sub desc T R) = none := by
  have hview : blockBody id sub desc T R =
      (keyTaskId ++ ' ' :: (id ++ '\n' ::
        (keyTaskSubagent ++ ' ' :: (sub ++ '\n' ::
          (keyTaskDescription ++ ' ' :: (desc ++ ['\n', '\n'])))))) ++
      (traceOpenTag ++ (('\n' :: (T ++ ['\n'])) ++ (traceCloseTag ++
        (['\n', '\n'] ++ (resultOpenTag ++
          (('\n' :: (R ++ ['\n'])) ++ resultCloseTag)))))) := by
    rw [blockBody_canon]
    simp [List.append_assoc]
  rw [hview]
  rw [splitFirst_append_noLt (q := "task_observation>".toList) (by decide)
    (header_noLt hid hsub hdesc)]
  rw [splitFirst_skip_seg (q := "task_observation>".toList) (by decide)
    (u := "task_trace>".toList) (by decide) (by decide)
    (fun l' => isPre_false_of_take_ne l' 7 (by decide) (by decide) (by decide))]
  rw [splitFirst_append_noLt (q := "task_observation>".toList) (by decide)
    (mid_noLt (wireText_noLt hT))]
  rw [splitFirst_skip_seg (q := "task_observation>".toList) (by decide)
    (u := "/task_trace>".toList) (by decide) (by decide)
    (fun l' => isPre_false_of_take_ne l' 2 (by decide) (by decide) (by decide))]
  rw [splitFirst_append_noLt (q := "task_observation>".toList) (by decide)
    (by decide : ∀ c ∈ ['\n', '\n'], c ≠ '<')]
  rw [splitFirst_skip_seg (q := "task_observation>".toList) (by decide)
    (u := "task_result>".toList) (by decide) (by decide)
    (fun l' => isPre_false_of_take_ne l' 7 (by decide) (by decide) (by decide))]
  rw [splitFirst_append_noLt (q := "task_observation>".toList) (by decide)
    (mid_noLt (wireText_noLt hR))]
  rw [(by decide : splitFirst obsOpenTag resultCloseTag = none)]
  rfl

theorem splitFirst_cons_ne {pat : Str} {q : Str} (hpat : pat = '<' :: q)
    {c : Char} (hc : c ≠ '<') (l : Str) :
    splitFirst pat (c :: l) = (splitFirst pat l).map (fun ba => (c :: ba.1, ba.2)) := by
  apply splitFirst_cons_of_not
  rw [hpat]
  have : ('<' == c) = false := by simpa using fun hh => hc hh.symm
  simp [isPre, this]

theorem dropOne_wrap (b : Str) :
    dropOneTrailingNl (dropOneLeadingNl ('\n' :: (b ++ ['\n']))) = b := by
  have h1 : dropOneLeadingNl ('\n' :: (b ++ ['\n'])) = b ++ ['\n'] := rfl
  rw [h1, dropOneTrailingNl]
  have h2 : (b ++ ['\n']).reverse = '\n' :: b.reverse := by simp
  rw [h2]
  have h3 : dropOneLeadingNl ('\n' :: b.reverse) = b.reverse := rfl
  rw [h3, List.reverse_reverse]

theorem observationCaptures_cons {content x rest inner after : Str}
    (h1 : splitFirst obsOpenTag content = some (x, rest))
    (h2 : splitFirst obsCloseTag rest = some (inner, after)) :
    observationCaptures content =
      dropOneTrailingNl (dropOneLeadingNl inner) :: observationCaptures after := by
  have e1 := splitFirst_length h1
  have e2 := splitFirst_length h2
  have hopen : obsOpenTag.length = 18 := by decide
  have hclose : obsCloseTag.length = 19 := by decide
  rw [hopen] at e1
  rw [hclose] at e2
  rw [observationCaptures, observationCaptures]
  cases hl : content.length with
  | zero => omega
  | succ f =>
    rw [observationCapturesGo]
    simp only [h1, h2]
    congr 1
    exact observationCapturesGo_stable f after.length after (by omega) le_rfl

theorem observationCaptures_nil {content : Str}
    (h1 : splitFirst obsOpenTag content = none) :
    observationCaptures content = [] := by
  rw [observationCaptures]
  cases content.length with
  | zero => rfl
  | succ f =>
    rw [observationCapturesGo]
    simp only [h1]

/-- Parsing one wire-safe block body recovers the five fields exactly. -/
theorem parseBlock_wire {id sub desc T R : Str}
    (hid : wireField id = true) (hsub : wireField sub = true)
    (hdesc : wireField desc = true) (hT : wireText T = true) (hR : wireText R = true) :
    parseTaskObservationBlock (blockBody id sub desc T R) = some ⟨id, sub, desc, T, R⟩ := by
  have h1 := findField_id_block sub desc T R hid
  have h2 := findField_sub_block desc T R hid hsub
  have h3 := findField_desc_block T R hid hsub hdesc
  have h4 := tagInner_trace_block (R := R) hid hsub hdesc hT
  have h5 := tagInner_result_block (T := T) hid hsub hdesc hT hR
  rw [parseTaskObservationBlock]
  simp only [h1, h2, h3, h4, h5]
  have hids : id.isEmpty = false := by
    cases hh : id with
    | nil => exact absurd hh (wireField_ne hid)
    | cons a as => rfl
  have hsubs : sub.isEmpty = false := by
    cases hh : sub with
    | nil => exact absurd hh (wireField_ne hsub)
    | cons a as => rfl
  have hdescs : desc.isEmpty = false := by
    cases hh : desc with
    | nil => exact absurd hh (wireField_ne hdesc)
    | cons a as => rfl
  simp only [hids, hsubs, hdescs, Bool.or_false, Bool.false_or, Bool.false_eq_true, if_false,
    Option.map_some', Option.getD_some]
  rw [jsTrim_nl_wrap (wireText_trimClean hT), jsTrim_nl_wrap (wireText_trimClean hR)]

theorem clampWithMarker_eq {s : Str} {maxChars : Nat} (h : s.length ≤ maxChars) :
    clampWithMarker s maxChars = s := by
  rw [clampWithMarker, if_neg (by omega)]

/-- Round trip for the single-observation builder on wire-safe observations. -/
theorem single_roundtrip {o : TaskObservation}
    (hid : wireField o.taskId = true) (hsub : wireField o.subagentName = true)
    (hdesc : wireField o.description = true) (hT : wireText o.trace = true)
    (hR : wireText o.result = true) (hTlen : o.trace.length ≤ 4000)
    (hRlen : o.result.length ≤ 2000) :
    parseTaskObservationFromToolOutput (buildObservedTaskOutput o) = some o := by
  have hbuild : buildObservedTaskOutput o =
      blockBody o.taskId o.subagentName o.description o.trace o.result := by
    rw [buildObservedTaskOutput, blockBody, clampWithMarker_eq hTlen, clampWithMarker_eq hRlen]
  rw [parseTaskObservationFromToolOutput, parseTaskObservationsFromToolOutput, hbuild]
  have hcap : observationCaptures (blockBody o.taskId o.subagentName o.description
      o.trace o.result) = [] :=
    observationCaptures_nil (obsCaptures_block_nil hid hsub hdesc hT hR)
  rw [hcap]
  simp only [List.length_nil, gt_iff_lt, Nat.lt_irrefl, if_false]
  rw [parseBlock_wire hid hsub hdesc hT hR]
  rfl

theorem digitChar_ne_lt (d : Nat) : digitChar d ≠ '<' := by
  rcases d with _ | _ | _ | _ | _ | _ | _ | _ | _ | d <;>
    first
    | decide
    | exact (by decide : ('9' : Char) ≠ '<')

theorem natToStrGo_noLt : ∀ (fuel n : Nat) (acc : Str), (∀ c ∈ acc, c ≠ '<') →
    ∀ c ∈ natToStrGo fuel n acc, c ≠ '<' := by
  intro fuel
  induction fuel with
  | zero =>
    intro n acc hacc c hc
    rw [natToStrGo] at hc
    exact hacc c hc
  | succ f ih =>
    intro n acc hacc c hc
    rw [natToStrGo] at hc
    split at hc
    · rcases List.mem_cons.mp hc with rfl | h
      · exact digitChar_ne_lt n
      · exact hacc c h
    · exact ih _ _ (noLt_cons (digitChar_ne_lt _) hacc) c hc

theorem natToStr_noLt (n : Nat) : ∀ c ∈ natToStr n, c ≠ '<' :=
  natToStrGo_noLt (n + 1) n [] (by simp)

/-- The section the batch builder produces for one observation, as a
wrapped block body. -/
theorem sect_eq (id sub desc T R : Str) :
    joinLines (obsOpenTag :: (observationLines id sub desc T R ++ [obsCloseTag])) =
      obsOpenTag ++ '\n' :: (blockBody id sub desc T R ++ '\n' :: obsCloseTag) := by
  simp [joinLines, observationLines, blockBody, List.append_assoc]

theorem splitFirst_obsClose_past_block {id sub desc T R : Str}
    (hid : wireField id = true) (hsub : wireField sub = true)
    (hdesc : wireField desc = true) (hT : wireText T = true) (hR : wireText R = true)
    (Y : Str) :
    splitFirst obsCloseTag (('\n' :: (blockBody id sub desc T R ++ ['\n'])) ++
        (obsCloseTag ++ Y)) =
      some ('\n' :: (blockBody id sub desc T R ++ ['\n']), Y) := by
  have hcontent : ('\n' :: (blockBody id sub desc T R ++ ['\n'])) ++ (obsCloseTag ++ Y) =
      '\n' :: ((keyTaskId ++ ' ' :: (id ++ '\n' ::
        (keyTaskSubagent ++ ' ' :: (sub ++ '\n' ::
          (keyTaskDescription ++ ' ' :: (desc ++ ['\n', '\n'])))))) ++
      (traceOpenTag ++ (('\n' :: (T ++ ['\n'])) ++ (traceCloseTag ++
        (['\n', '\n'] ++ (resultOpenTag ++ (('\n' :: (R ++ ['\n'])) ++
          (resultCloseTag ++ ('\n' :: (obsCloseTag ++ Y)))))))))) := by
    rw [blockBody_canon]
    simp [List.append_assoc]
  rw [hcontent]
  rw [splitFirst_cons_ne (q := "/task_observation>".toList) (by decide) (by decide)]
  rw [splitFirst_append_noLt (q := "/task_observation>".toList) (by decide)
    (header_noLt hid hsub hdesc)]
  rw [splitFirst_skip_seg (q := "/task_observation>".toList) (by decide)
    (u := "task_trace>".toList) (by decide) (by decide)
    (fun l' => isPre_false_of_take_ne l' 2 (by decide) (by decide) (by decide))]
  rw [splitFirst_append_noLt (q := "/task_observation>".toList) (by decide)
    (mid_noLt (wireText_noLt hT))]
  rw [splitFirst_skip_seg (q := "/task_observation>".toList) (by decide)
    (u := "/task_trace>".toList) (by decide) (by decide)
    (fun l' => isPre_false_of_take_ne l' 8 (by decide) (by decide) (by decide))]
  rw [splitFirst_append_noLt (q := "/task_observation>".toList) (by decide)
    (by decide : ∀ c ∈ ['\n', '\n'], c ≠ '<')]
  rw [splitFirst_skip_seg (q := "/task_observation>".toList) (by decide)
    (u := "task_result>".toList) (by decide) (by decide)
    (fun l' => isPre_false_of_take_ne l' 2 (by decide) (by decide) (by decide))]
  rw [splitFirst_append_noLt (q := "/task_observation>".toList) (by decide)
    (mid_noLt (wireText_noLt hR))]
  rw [splitFirst_skip_seg (q := "/task_observation>".toList) (by decide)
    (u := "/task_result>".toList) (by decide) (by decide)
    (fun l' => isPre_false_of_take_ne l' 8 (by decide) (by decide) (by decide))]
  rw [splitFirst_cons_ne (q := "/task_observation>".toList) (by decide) (by decide)]
  rw [splitFirst_target' (by decide)]
  simp only [Option.map_some']
  congr 1
  rw [blockBody_canon]
  simp [List.append_assoc]

theorem captures_sections (l : List TaskObservation)
    (hl : ∀ o ∈ l, wireObs 3000 1500 o) :
    ∀ pre : Str, (∀ c ∈ pre, c ≠ '<') →
      observationCaptures (pre ++ joinLines (l.map obsSection)) =
        l.map (fun o => blockBody o.taskId o.subagentName o.description o.trace o.result) := by
  induction l with
  | nil =>
    intro pre hpre
    simp only [List.map_nil, joinLines, List.append_nil]
    exact observationCaptures_nil
      (splitFirst_none_noLt (q := "task_observation>".toList) (by decide) hpre)
  | cons o rest ih =>
    intro pre hpre
    obtain ⟨hid, hsub, hdesc, hT, hR, _, _⟩ := hl o (List.mem_cons_self _ _)
    have hrest : ∀ o' ∈ rest, wireObs 3000 1500 o' :=
      fun o' h => hl o' (List.mem_cons_of_mem _ h)
    cases rest with
    | nil =>
      simp only [List.map_cons, List.map_nil]
      have hjoin : joinLines [obsSection o] = obsSection o := rfl
      rw [hjoin, obsSection, sect_eq]
      have hview : pre ++ (obsOpenTag ++ '\n' ::
          (blockBody o.taskId o.subagentName o.description o.trace o.result ++
            '\n' :: obsCloseTag)) =
          pre ++ (obsOpenTag ++ (('\n' ::
            (blockBody o.taskId o.subagentName o.description o.trace o.result ++ ['\n'])) ++
          (obsCloseTag ++ []))) := by
        simp [List.append_assoc]
      rw [hview]
      rw [observationCaptures_cons
        (splitFirst_seg_target (q := "task_observation>".toList) (by decide) hpre _)
        (splitFirst_obsClose_past_block hid hsub hdesc hT hR [])]
      rw [dropOne_wrap]
      rw [observationCaptures_nil (by decide : splitFirst obsOpenTag [] = none)]
    | cons o2 rest2 =>
      simp only [List.map_cons]
      have hjoin : joinLines (obsSection o :: obsSection o2 :: rest2.map obsSection) =
          obsSection o ++ '\n' :: joinLines (obsSection o2 :: rest2.map obsSection) := rfl
      rw [hjoin, obsSection, sect_eq]
      have hview : pre ++ ((obsOpenTag ++ '\n' ::
          (blockBody o.taskId o.subagentName o.description o.trace o.result ++
            '\n' :: obsCloseTag)) ++
          '\n' :: joinLines (obsSection o2 :: rest2.map obsSection)) =
          pre ++ (obsOpenTag ++ (('\n' ::
            (blockBody o.taskId o.subagentName o.description o.trace o.result ++ ['\n'])) ++
          (obsCloseTag ++ ('\n' :: joinLines (obsSection o2 :: rest2.map obsSection))))) := by
        simp [List.append_assoc]
      rw [hview]
      rw [observationCaptures_cons
        (splitFirst_seg_target (q := "task_observation>".toList) (by decide) hpre _)
        (splitFirst_obsClose_past_block hid hsub hdesc hT hR _)]
      rw [dropOne_wrap]
      have := ih hrest ['\n'] (by decide)
      simp only [List.map_cons] at this
      have h2 : ('\n' :: joinLines (obsSection o2 :: rest2.map obsSection)) =
          ['\n'] ++ joinLines (obsSection o2 :: rest2.map obsSection) := rfl
      rw [h2, this]

theorem taskObservation_eta (o : TaskObservation) :
    (⟨o.taskId, o.subagentName, o.description, o.trace, o.result⟩ : TaskObservation) = o := rfl

theorem batch_roundtrip (l : List TaskObservation) (hl : ∀ o ∈ l, wireObs 3000 1500 o) :
    parseTaskObservationsFromToolOutput (buildParallelObservedTaskOutput l) = l := by
  cases l with
  | nil => decide
  | cons o0 rest =>
    have hsects : (o0 :: rest).map (fun o =>
        joinLines (obsOpenTag :: (observationLines o.taskId o.subagentName o.description
          (clampWithMarker o.trace 3000) (clampWithMarker o.result 1500) ++ [obsCloseTag]))) =
        (o0 :: rest).map obsSection := by
      apply List.map_congr_left
      intro o ho
      obtain ⟨_, _, _, _, _, hTl, hRl⟩ := hl o ho
      rw [clampWithMarker_eq hTl, clampWithMarker_eq hRl, obsSection]
    have hbuild : buildParallelObservedTaskOutput (o0 :: rest) =
        (("task_parallel_count: ".toList ++ natToStr (o0 :: rest).length) ++ ['\n', '\n']) ++
          joinLines ((o0 :: rest).map obsSection) := by
      rw [buildParallelObservedTaskOutput]
      simp only [hsects]
      cases hrm : (o0 :: rest).map obsSection with
      | nil => simp at hrm
      | cons s0 ss =>
        simp [joinLines, List.append_assoc]
    have hpre : ∀ c ∈ ("task_parallel_count: ".toList ++ natToStr (o0 :: rest).length) ++
        ['\n', '\n'], c ≠ '<' :=
      noLt_append (noLt_append (by decide) (natToStr_noLt _)) (by decide)
    have hcaps := captures_sections (o0 :: rest) hl _ hpre
    rw [parseTaskObservationsFromToolOutput, hbuild, hcaps]
    rw [if_pos (by simp [List.length_map])]
    have hmap : (o0 :: rest).map (parseTaskObservationBlock ∘ fun o =>
        blockBody o.taskId o.subagentName o.description o.trace o.result) =
        (o0 :: rest).map some := by
      apply List.map_congr_left
      intro o ho
      obtain ⟨hid, hsub, hdesc, hT, hR, _, _⟩ := hl o ho
      show parseTaskObservationBlock (blockBody o.taskId o.subagentName o.description
        o.trace o.result) = some o
      rw [parseBlock_wire hid hsub hdesc hT hR]
    rw [List.map_map, hmap]
    simp

/-- C6: `parseTaskObservationBlock` returns none exactly when one of the three
required fields is absent or trims to empty; when all three are present and non-empty,
missing `task_trace` / `task_result` tags yield empty strings, never a failure. -/
theorem c6_parse_contract : ∀ content : Str,
    (parseTaskObservationBlock content = none ↔
      (reqFieldEmpty keyTaskId content || reqFieldEmpty keyTaskSubagent content ||
        reqFieldEmpty keyTaskDescription content) = true) ∧
    (∀ obs, parseTaskObservationBlock content = some obs →
      (tagInner traceOpenTag traceCloseTag content = none → obs.trace = []) ∧
      (tagInner resultOpenTag resultCloseTag content = none → obs.result = [])) := by
  intro content
  simp only [parseTaskObservationBlock, reqFieldEmpty]
  cases h1 : findField keyTaskId content with
  | none => simp [h1]
  | some i =>
    cases h2 : findField keyTaskSubagent content with
    | none => simp [h2]
    | some s =>
      cases h3 : findField keyTaskDescription content with
      | none => simp [h3]
      | some d =>
        simp only []
        by_cases hempty : (i.isEmpty || s.isEmpty || d.isEmpty) = true
        · rw [if_pos hempty]
          refine ⟨by simp [hempty], ?_⟩
          intro obs h
          cases h
        · rw [if_neg hempty]
          refine ⟨by simp [hempty], ?_⟩
          intro obs h
          injection h with h
          subst h
          constructor
          · intro htr
            rw [htr]
            rfl
          · intro hres
            rw [hres]
            rfl

theorem c6_witness :
    parseTaskObservationBlock
        ("task_id: a\ntask_subagent: b\ntask_description: c".toList) =
      some ⟨"a".toList, "b".toList, "c".toList, [], []⟩ ∧
    (⟨"a".toList, "b".toList, "c".toList, [], []⟩ : TaskObservation).trace = [] ∧
    (⟨"a".toList, "b".toList, "c".toList, [], []⟩ : TaskObservation).result = [] := by
  have h := (c6_parse_contract
    ("task_id: a\ntask_subagent: b\ntask_description: c".toList)).2
    ⟨"a".toList, "b".toList, "c".toList, [], []⟩ (by decide)
  exact ⟨by decide, h.1 (by decide), h.2 (by decide)⟩

theorem captures_renderWrapped :
    ∀ (pairs : List (Str × Str)) (tailGap : Str),
      (∀ p ∈ pairs, (∀ c ∈ p.1, c ≠ '<') ∧ (∀ c ∈ p.2, c ≠ '<')) →
      (∀ c ∈ tailGap, c ≠ '<') →
      observationCaptures (renderWrapped pairs tailGap) = pairs.map Prod.snd := by
  intro pairs
  induction pairs with
  | nil =>
    intro tailGap _ ht
    exact observationCaptures_nil
      (splitFirst_none_noLt (q := "task_observation>".toList) (by decide) ht)
  | cons p rest ih =>
    intro tailGap hp ht
    obtain ⟨gap, b⟩ := p
    obtain ⟨hgap, hb⟩ := hp (gap, b) (List.mem_cons_self _ _)
    have hrest : ∀ p ∈ rest, (∀ c ∈ p.1, c ≠ '<') ∧ (∀ c ∈ p.2, c ≠ '<') :=
      fun p h => hp p (List.mem_cons_of_mem _ h)
    rw [renderWrapped]
    have hview : gap ++ (obsOpenTag ++ ('\n' :: (b ++ '\n' ::
        (obsCloseTag ++ renderWrapped rest tailGap)))) =
        gap ++ (obsOpenTag ++ (('\n' :: (b ++ ['\n'])) ++
        (obsCloseTag ++ renderWrapped rest tailGap))) := by
      simp [List.append_assoc]
    rw [hview]
    rw [observationCaptures_cons
      (splitFirst_seg_target (q := "task_observation>".toList) (by decide) hgap _)
      (splitFirst_seg_target (q := "/task_observation>".toList) (by decide)
        (noLt_cons (by decide) (noLt_append hb (by decide))) _)]
    rw [dropOne_wrap, ih tailGap hrest ht]
    simp

/-- C10: on tool output whose wrappers enclose '<'-free blocks,
`parseTaskObservationsFromToolOutput` returns exactly the per-block parses in input
order, silently dropping unparseable blocks; and on every input an empty batch forces
the single-observation variant to return none. -/
theorem c10_parse_tool_output :
    (∀ (pairs : List (Str × Str)) (tailGap : Str),
      pairs ≠ [] →
      (∀ p ∈ pairs, (∀ c ∈ p.1, c ≠ '<') ∧ (∀ c ∈ p.2, c ≠ '<')) →
      (∀ c ∈ tailGap, c ≠ '<') →
      parseTaskObservationsFromToolOutput (renderWrapped pairs tailGap) =
        ((pairs.map Prod.snd).map parseTaskObservationBlock).filterMap id) ∧
    (∀ content : Str, parseTaskObservationsFromToolOutput content = [] →
      parseTaskObservationFromToolOutput content = none) := by
  constructor
  · intro pairs tailGap hne hp ht
    rw [parseTaskObservationsFromToolOutput, captures_renderWrapped pairs tailGap hp ht]
    rw [if_pos]
    simp only [List.length_map]
    cases pairs with
    | nil => exact absurd rfl hne
    | cons p rest => simp
  · intro content h
    rw [parseTaskObservationFromToolOutput, h]
    rfl

theorem c10_witness :
    parseTaskObservationsFromToolOutput (renderWrapped
      [(" intro ".toList, "task_id: a\ntask_subagent: b\ntask_description: c".toList),
       ("\n".toList, "garbage text".toList)] "\ndone".toList) =
      [⟨"a".toList, "b".toList, "c".toList, [], []⟩] := by
  have h := c10_parse_tool_output.1
    [(" intro ".toList, "task_id: a\ntask_subagent: b\ntask_description: c".toList),
     ("\n".toList, "garbage text".toList)] "\ndone".toList
    (by decide) (by decide) (by decide)
  rw [h]
  decide

/-- C5 counterexample: a trailing space in the trace is trimmed away by the
parser, so the round trip is not the identity on arbitrary observations. -/
theorem c5_counterexample :
    parseTaskObservationFromToolOutput (buildObservedTaskOutput
      ⟨"t".toList, "s".toList, "d".toList, "x ".toList, "r".toList⟩) ≠
    some ⟨"t".toList, "s".toList, "d".toList, "x ".toList, "r".toList⟩ := by
  decide

/-- C5 (amended): for observations whose required fields are non-empty, single-line,
trim-invariant and '<'-free, and whose trace and result are trim-invariant, '<'-free
and within the truncation caps, parsing the single builder's text recovers the
observation and parsing the batch builder's text recovers the list, including the
empty-trace / empty-result cases. -/
theorem c5_roundtrip_wire : ∀ (o : TaskObservation) (l : List TaskObservation),
    (wireObs 4000 2000 o →
      parseTaskObservationFromToolOutput (buildObservedTaskOutput o) = some o) ∧
    ((∀ o' ∈ l, wireObs 3000 1500 o') →
      parseTaskObservationsFromToolOutput (buildParallelObservedTaskOutput l) = l) := by
  intro o l
  constructor
  · intro h
    obtain ⟨hid, hsub, hdesc, hT, hR, hTl, hRl⟩ := h
    exact single_roundtrip hid hsub hdesc hT hR hTl hRl
  · exact batch_roundtrip l

theorem c5_roundtrip_wire_witness :
    (wireObs 4000 2000 ⟨"t7".toList, "general".toList, "scan".toList,
        "lineA\nlineB".toList, "done".toList⟩ ∧
      parseTaskObservationFromToolOutput (buildObservedTaskOutput
        ⟨"t7".toList, "general".toList, "scan".toList,
          "lineA\nlineB".toList, "done".toList⟩) =
        some ⟨"t7".toList, "general".toList, "scan".toList,
          "lineA\nlineB".toList, "done".toList⟩) ∧
    ((∀ o' ∈ [(⟨"t7".toList, "general".toList, "scan".toList, [], []⟩ : TaskObservation)],
        wireObs 3000 1500 o') ∧
      parseTaskObservationsFromToolOutput (buildParallelObservedTaskOutput
        [⟨"t7".toList, "general".toList, "scan".toList, [], []⟩]) =
        [⟨"t7".toList, "general".toList, "scan".toList, [], []⟩]) := by
  refine ⟨⟨by decide, ?_⟩, ⟨by decide, ?_⟩⟩
  · exact (c5_roundtrip_wire ⟨"t7".toList, "general".toList, "scan".toList,
      "lineA\nlineB".toList, "done".toList⟩ []).1 (by decide)
  · exact (c5_roundtrip_wire ⟨"t7".toList, "general".toList, "scan".toList, [], []⟩
      [⟨"t7".toList, "general".toList, "scan".toList, [], []⟩]).2 (by decide)

theorem arcOnce_malformed {env : ArcEnv} (h1 : env.aborted = false)
    (h2 : ∀ ms, env.shouldAutoCompactHistory ms = false)
    {ms out : List LlmIR} {curl err : Str}
    (hrunms : env.run ms = .success out curl)
    (hlast : out.getLast? = some (.toolMalformedIR err)) :
    arcOnce env ms = .wantRetry out out (ms ++ out) curl tooManyMalformedMsg 1 := by
  rw [arcOnce]
  simp only [h1, h2, Bool.false_eq_true, if_false, Option.toList_none, List.append_nil,
    List.nil_append, hrunms, hlast]

/-- C1: for every retry budget B, an environment whose every backend call ends in a
malformed tool call drives `trajectoryArc` through exactly B + 1 arc invocations, one
backend call each, finishing with the `request-error` runaway-retry message; each step
decrements the threaded budget by one and concatenates the retried arc's IR output
after the current arc's. -/
theorem c1_malformed_retries (env : ArcEnv)
    (hab : env.aborted = false)
    (hnc : ∀ ms, env.shouldAutoCompactHistory ms = false)
    (hrun : ∀ ms, ∃ out curl err, env.run ms = .success out curl ∧
      out.getLast? = some (.toolMalformedIR err)) :
    ∀ (B : Nat) (ms : List LlmIR),
      (trajectoryArc env ms B).invocations = B + 1 ∧
      (trajectoryArc env ms B).backendCalls = B + 1 ∧
      (∃ curl, (trajectoryArc env ms B).finish.reason =
        .requestError tooManyMalformedMsg curl) ∧
      (trajectoryArc env ms B).finish.irs = malformedTrace env B ms ∧
      (∀ b, trajectoryArc env ms (b + 1) =
        ⟨⟨runOutput env ms ++ (trajectoryArc env (ms ++ runOutput env ms) b).finish.irs,
          (trajectoryArc env (ms ++ runOutput env ms) b).finish.reason⟩,
          1 + (trajectoryArc env (ms ++ runOutput env ms) b).invocations,
          1 + (trajectoryArc env (ms ++ runOutput env ms) b).backendCalls⟩) := by
  have hstep : ∀ (ms : List LlmIR) (b : Nat),
      trajectoryArc env ms (b + 1) =
        ⟨⟨runOutput env ms ++ (trajectoryArc env (ms ++ runOutput env ms) b).finish.irs,
          (trajectoryArc env (ms ++ runOutput env ms) b).finish.reason⟩,
          1 + (trajectoryArc env (ms ++ runOutput env ms) b).invocations,
          1 + (trajectoryArc env (ms ++ runOutput env ms) b).backendCalls⟩ := by
    intro ms b
    obtain ⟨out, curl, err, hrunms, hlast⟩ := hrun ms
    have hout : runOutput env ms = out := by rw [runOutput, hrunms]
    rw [trajectoryArc, arcOnce_malformed hab hnc hrunms hlast, hout]
  have hzero : ∀ ms : List LlmIR,
      trajectoryArc env ms 0 =
        ⟨⟨runOutput env ms, .requestError tooManyMalformedMsg
            (match env.run ms with | .success _ c => c | .failure _ c => c)⟩, 1, 1⟩ := by
    intro ms
    obtain ⟨out, curl, err, hrunms, hlast⟩ := hrun ms
    have hout : runOutput env ms = out := by rw [runOutput, hrunms]
    rw [trajectoryArc, arcOnce_malformed hab hnc hrunms hlast, hout, hrunms]
  intro B
  induction B with
  | zero =>
    intro ms
    rw [hzero ms]
    exact ⟨rfl, rfl, ⟨_, rfl⟩, rfl, hstep ms⟩
  | succ b ih =>
    intro ms
    obtain ⟨hinv, hbc, ⟨curl2, hreason⟩, hirs, _⟩ := ih (ms ++ runOutput env ms)
    rw [hstep ms b]
    refine ⟨by simp only [hinv]; omega, by simp only [hbc]; omega, ⟨curl2, hreason⟩, ?_, hstep ms⟩
    simp only [malformedTrace, hirs]

theorem c1_malformed_retries_witness :
    (envMalformedW.aborted = false) ∧
    (trajectoryArc envMalformedW [] 2).invocations = 3 ∧
    (trajectoryArc envMalformedW [] 2).finish.reason =
      .requestError tooManyMalformedMsg ("curl-w".toList) := by
  have h := c1_malformed_retries envMalformedW rfl (fun _ => rfl)
    (fun ms => ⟨[.toolMalformedIR ("bad json".toList)], "curl-w".toList,
      "bad json".toList, rfl, rfl⟩) 2 []
  exact ⟨rfl, h.1, by decide⟩

theorem dropOldestSessions_eq_drop : ∀ l : List (Str × TaskSession),
    dropOldestSessions l = l.drop (l.length - MAX_TASK_SESSIONS) := by
  intro l
  induction l with
  | nil => simp [dropOldestSessions]
  | cons e rest ih =>
    rw [dropOldestSessions]
    by_cases h : MAX_TASK_SESSIONS < (e :: rest).length
    · rw [if_pos h, ih]
      have h1 : (e :: rest).length - MAX_TASK_SESSIONS =
          (rest.length - MAX_TASK_SESSIONS) + 1 := by
        simp only [List.length_cons] at h ⊢
        omega
      rw [h1]
      rfl
    · rw [if_neg h]
      have h1 : (e :: rest).length - MAX_TASK_SESSIONS = 0 := by
        simp only [List.length_cons] at h ⊢
        omega
      rw [h1]
      rfl

theorem getLast?_drop_of_lt {α : Type} (l : List α) (k : Nat) (hk : k < l.length) :
    (l.drop k).getLast? = l.getLast? := by
  conv_rhs => rw [← List.take_append_drop k l]
  rw [List.getLast?_append]
  cases h : (l.drop k).getLast? with
  | some x => rfl
  | none =>
    rw [List.getLast?_eq_none_iff] at h
    have := congrArg List.length h
    simp only [List.length_drop, List.length_nil] at this
    omega

/-- C9: after every `storeTaskSession` the table holds at most 48 entries; the result
is the delete-then-append list with its oldest-inserted entries dropped from the
front (oldest-insertion eviction), and the stored session is always the newest
entry. -/
theorem c9_store_session_capacity (table : List (Str × TaskSession))
    (taskId : Str) (session : TaskSession) :
    (storeTaskSession table taskId session).length ≤ 48 ∧
    storeTaskSession table taskId session =
      ((table.eraseP (fun e => e.1 == taskId)) ++ [(taskId, session)]).drop
        (((table.eraseP (fun e => e.1 == taskId)) ++ [(taskId, session)]).length - 48) ∧
    (storeTaskSession table taskId session).getLast? = some (taskId, session) := by
  have hmax : MAX_TASK_SESSIONS = 48 := rfl
  set l := (table.eraseP (fun e => e.1 == taskId)) ++ [(taskId, session)] with hl
  have hlen : 1 ≤ l.length := by
    rw [hl]
    simp
  have hdrop : storeTaskSession table taskId session = l.drop (l.length - 48) := by
    rw [storeTaskSession, dropOldestSessions_eq_drop, hmax]
  refine ⟨?_, hdrop, ?_⟩
  · rw [hdrop]
    simp only [List.length_drop]
    omega
  · rw [hdrop, getLast?_drop_of_lt _ _ (by omega)]
    rw [hl, List.getLast?_append]
    rfl

theorem enum_map_get? {α β : Type} (f : Nat × α → β) (l : List α) (i : Nat) :
    ((l.enum.map f).get? i) = (l.get? i).map (fun a => f (i, a)) := by
  rw [List.get?_map, List.get?_enum]
  cases l.get? i with
  | none => rfl
  | some a => rfl

/-- C2: with per-invocation settled outcomes (the `Promise.allSettled` fan-in), the
parallel run returns one observation per planned invocation in batch order; a failed
invocation maps to `taskObservationFromFailure`, whose trace has a `[task-error]` line
and whose result starts with `Subagent task failed: `, and no failure suppresses a
sibling or escapes the call. -/
theorem c2_parallel_failure_isolation (settledAt : Nat → SettledResult)
    (planned : List (TaskInvocation × Str)) :
    (parallelObservations settledAt planned).length = planned.length ∧
    (∀ (i : Nat) (entry : TaskInvocation × Str), planned.get? i = some entry →
      (∀ v, settledAt i = .fulfilled v →
        (parallelObservations settledAt planned).get? i = some v) ∧
      (∀ e, settledAt i = .rejected e →
        (parallelObservations settledAt planned).get? i =
          some (taskObservationFromFailure entry.1 e entry.2) ∧
        containsStr ("[task-error]".toList)
          (taskObservationFromFailure entry.1 e entry.2).trace ∧
        isPre ("Subagent task failed: ".toList)
          (taskObservationFromFailure entry.1 e entry.2).result = true)) ∧
    runTaskToolParallel settledAt planned =
      buildParallelObservedTaskOutput (parallelObservations settledAt planned) := by
  refine ⟨?_, ?_, rfl⟩
  · rw [parallelObservations, List.length_map, List.enum_length]
  · intro i entry hentry
    have hget : (parallelObservations settledAt planned).get? i =
        some (match settledAt i with
          | .fulfilled v => v
          | .rejected e => taskObservationFromFailure entry.1 e entry.2) := by
      rw [parallelObservations, enum_map_get?, hentry]
      rfl
    constructor
    · intro v hv
      rw [hget, hv]
    · intro e he
      rw [hget, he]
      refine ⟨rfl, ⟨[], '\n' :: e, by rfl⟩, ?_⟩
      exact isPre_self_append _ _

theorem c2_witness :
    (([(⟨"d1".toList, "p1".toList, "general".toList, none⟩, "id1".toList),
       (⟨"d2".toList, "p2".toList, "explore".toList, none⟩, "id2".toList)] :
        List (TaskInvocation × Str)).get? 1 =
      some (⟨"d2".toList, "p2".toList, "explore".toList, none⟩, "id2".toList)) ∧
    (parallelObservations
        (fun i => if i = 0 then .fulfilled ⟨"id1".toList, "general".toList,
          "d1".toList, "tr".toList, "ok".toList⟩ else .rejected ("boom".toList))
        [(⟨"d1".toList, "p1".toList, "general".toList, none⟩, "id1".toList),
         (⟨"d2".toList, "p2".toList, "explore".toList, none⟩, "id2".toList)]).get? 1 =
      some (taskObservationFromFailure ⟨"d2".toList, "p2".toList, "explore".toList, none⟩
        ("boom".toList) ("id2".toList)) := by
  constructor
  · decide
  · have h := (c2_parallel_failure_isolation
      (fun i => if i = 0 then .fulfilled ⟨"id1".toList, "general".toList,
        "d1".toList, "tr".toList, "ok".toList⟩ else .rejected ("boom".toList))
      [(⟨"d1".toList, "p1".toList, "general".toList, none⟩, "id1".toList),
       (⟨"d2".toList, "p2".toList, "explore".toList, none⟩, "id2".toList)]).2.1 1
      (⟨"d2".toList, "p2".toList, "explore".toList, none⟩, "id2".toList) (by decide)
    exact (h.2 ("boom".toList) (by decide)).1

theorem collectDuplicates_nil_iff : ∀ (invs : List TaskInvocation) (seen : List Str),
    collectDuplicates invs seen = [] ↔
      ((invs.filterMap TaskInvocation.task_id).Nodup ∧
        ∀ tid ∈ invs.filterMap TaskInvocation.task_id, tid ∉ seen) := by
  intro invs
  induction invs with
  | nil => simp [collectDuplicates]
  | cons inv rest ih =>
    intro seen
    cases htid : inv.task_id with
    | none =>
      rw [collectDuplicates, htid]
      rw [List.filterMap_cons_none htid]
      exact ih seen
    | some tid =>
      rw [collectDuplicates, htid]
      dsimp only []
      rw [List.filterMap_cons_some htid]
      by_cases hmem : tid ∈ seen
      · rw [if_pos hmem]
        constructor
        · intro h
          cases h
        · rintro ⟨_, hall⟩
          exact absurd hmem (hall tid (List.mem_cons_self _ _))
      · rw [if_neg hmem]
        rw [ih (tid :: seen)]
        constructor
        · rintro ⟨hnd, hall⟩
          refine ⟨List.nodup_cons.mpr ⟨?_, hnd⟩, ?_⟩
          · intro hmem2
            exact (hall tid hmem2) (List.mem_cons_self _ _)
          · intro x hx
            rcases List.mem_cons.mp hx with rfl | hx2
            · exact hmem
            · intro hxs
              exact (hall x hx2) (List.mem_cons_of_mem _ hxs)
        · rintro ⟨hnd, hall⟩
          obtain ⟨htid2, hnd2⟩ := List.nodup_cons.mp hnd
          refine ⟨hnd2, ?_⟩
          intro x hx hxs
          rcases List.mem_cons.mp hxs with rfl | hxs2
          · exact htid2 hx
          · exact (hall x (List.mem_cons_of_mem _ hx)) hxs2

theorem checkParallelSubagents_ok {candidates : List Str} :
    ∀ {l : List TaskInvocation}, (∀ t ∈ l, t.subagent_type ∈ candidates) →
      checkParallelSubagents candidates l = .ok () := by
  intro l
  induction l with
  | nil => intro _; rfl
  | cons t rest ih =>
    intro h
    rw [checkParallelSubagents]
    rw [if_neg (by simpa using h t (List.mem_cons_self _ _))]
    exact ih (fun x hx => h x (List.mem_cons_of_mem _ hx))

/-- C4: validation rejects a batch exactly when two `parallel_tasks` entries carry the
same explicit `task_id`; entries omitting `task_id` are exempt from the check, and a
top-level `task_id` equal to a nested entry's is accepted. -/
theorem c4_task_id_uniqueness (candidates : List Str) (args : TaskToolArguments)
    (h1 : args.subagent_type ∈ candidates)
    (h2 : ∀ t ∈ args.parallel_tasks.getD [], t.subagent_type ∈ candidates) :
    ((taskToolValidate candidates args = .ok ()) ↔
      ((invocationInputs args).filterMap TaskInvocation.task_id).Nodup) ∧
    (∀ pts, args.parallel_tasks = some pts → pts ≠ [] → invocationInputs args = pts) ∧
    (∀ (liveRunId : Str) (i : Nat) (inv : TaskInvocation),
      (invocationInputs args).get? i = some inv → inv.task_id = none →
      (plannedTaskIds liveRunId (invocationInputs args)).get? i =
        some (makeLiveTaskID liveRunId i)) := by
  refine ⟨?_, ?_, ?_⟩
  · rw [taskToolValidate, if_neg (by simpa using h1)]
    cases hv : validateTaskIdUniqueness (invocationInputs args) with
    | error e =>
      rw [validateTaskIdUniqueness] at hv
      by_cases hdup : (collectDuplicates (invocationInputs args) []).isEmpty
      · rw [if_pos hdup] at hv
        cases hv
      · simp only []
        constructor
        · intro h
          cases h
        · intro hnd
          exfalso
          apply hdup
          rw [List.isEmpty_iff]
          exact (collectDuplicates_nil_iff _ []).mpr ⟨hnd, by simp⟩
    | ok u =>
      rw [checkParallelSubagents_ok h2]
      rw [validateTaskIdUniqueness] at hv
      by_cases hdup : (collectDuplicates (invocationInputs args) []).isEmpty
      · constructor
        · intro _
          have := (collectDuplicates_nil_iff (invocationInputs args) []).mp
            (List.isEmpty_iff.mp hdup)
          exact this.1
        · intro _
          rfl
      · rw [if_neg hdup] at hv
        cases hv
  · intro pts hpts hne
    rw [invocationInputs, hpts]
    dsimp only []
    rw [if_pos (by cases pts with | nil => exact absurd rfl hne | cons a l => simp)]
  · intro liveRunId i inv hget hnone
    rw [plannedTaskIds, enum_map_get?, hget]
    simp only [Option.map_some']
    rw [hnone]
    rfl

theorem c4_witness :
    (("general".toList : Str) ∈ ["general".toList, "explore".toList] ∧
      taskToolValidate ["general".toList, "explore".toList]
        ⟨"d".toList, "p".toList, "general".toList, some ("dup".toList),
          some [⟨"d1".toList, "p1".toList, "explore".toList, some ("dup".toList)⟩,
                ⟨"d2".toList, "p2".toList, "general".toList, none⟩]⟩ = .ok ()) ∧
    taskToolValidate ["general".toList, "explore".toList]
      ⟨"d".toList, "p".toList, "general".toList, none,
        some [⟨"d1".toList, "p1".toList, "explore".toList, some ("x".toList)⟩,
              ⟨"d2".toList, "p2".toList, "general".toList, some ("x".toList)⟩]⟩ ≠ .ok () := by
  refine ⟨⟨by decide, ?_⟩, ?_⟩
  · exact (c4_task_id_uniqueness ["general".toList, "explore".toList]
      ⟨"d".toList, "p".toList, "general".toList, some ("dup".toList),
        some [⟨"d1".toList, "p1".toList, "explore".toList, some ("dup".toList)⟩,
              ⟨"d2".toList, "p2".toList, "general".toList, none⟩]⟩
      (by decide) (by decide)).1.mpr (by decide)
  · intro hok
    have := (c4_task_id_uniqueness ["general".toList, "explore".toList]
      ⟨"d".toList, "p".toList, "general".toList, none,
        some [⟨"d1".toList, "p1".toList, "explore".toList, some ("x".toList)⟩,
              ⟨"d2".toList, "p2".toList, "general".toList, some ("x".toList)⟩]⟩
      (by decide) (by decide)).1.mp hok
    revert this
    decide

/-- C3: resuming an existing task id with the session's pinned subagent re-stores the
session with the (possibly preamble-prefixed, trimmed) prompt appended to its history;
naming a different subagent returns the pinning error, whose message contains both the
task id and the original subagent name. -/
theorem c3_session_pinning (sessions : List (Str × TaskSession))
    (candidates : List Str) (invocation : TaskInvocation)
    (plannedTaskId : Str) (peer : Option PeerContext) (s : TaskSession)
    (hknown : invocation.subagent_type ∈ candidates)
    (hfound : (sessions.find? (fun e =>
      e.1 == invocation.task_id.getD plannedTaskId)).map Prod.snd = some s) :
    (invocation.subagent_type = s.subagentName →
      executeTaskInvocationStart sessions candidates invocation plannedTaskId peer =
        .ok (storeTaskSession sessions (invocation.task_id.getD plannedTaskId)
              (sessionWithPrompt s invocation peer),
             sessionWithPrompt s invocation peer) ∧
      (sessionWithPrompt s invocation peer).history =
        s.history ++
          (if jsTrim ((match peer with
              | some p => buildParallelAwarenessPreamble invocation p
              | none => []) ++ invocation.prompt) = [] then []
           else [HistoryItem.user (jsTrim ((match peer with
              | some p => buildParallelAwarenessPreamble invocation p
              | none => []) ++ invocation.prompt))])) ∧
    (invocation.subagent_type ≠ s.subagentName →
      executeTaskInvocationStart sessions candidates invocation plannedTaskId peer =
        .error (pinningErrorMsg (invocation.task_id.getD plannedTaskId) s.subagentName) ∧
      containsStr (invocation.task_id.getD plannedTaskId)
        (pinningErrorMsg (invocation.task_id.getD plannedTaskId) s.subagentName) ∧
      containsStr s.subagentName
        (pinningErrorMsg (invocation.task_id.getD plannedTaskId) s.subagentName)) := by
  have hstart : executeTaskInvocationStart sessions candidates invocation plannedTaskId peer =
      (if s.subagentName ≠ invocation.subagent_type then
        Except.error (pinningErrorMsg (invocation.task_id.getD plannedTaskId) s.subagentName)
      else
        .ok (storeTaskSession sessions (invocation.task_id.getD plannedTaskId)
              (sessionWithPrompt s invocation peer),
             sessionWithPrompt s invocation peer)) := by
    rw [executeTaskInvocationStart.eq_def]
    rw [if_neg (by simpa using hknown)]
    simp only [makeSessionKey]
    rw [hfound]
    simp only [Option.getD_some]
    by_cases hne : s.subagentName ≠ invocation.subagent_type
    · rw [if_pos hne, if_pos hne]
      rfl
    · rw [if_neg hne, if_neg hne]
      rfl
  constructor
  · intro heq
    constructor
    · rw [hstart, if_neg (by simp [heq])]
    · clear hstart
      rw [sessionWithPrompt.eq_def]
      by_cases hp : jsTrim ((match peer with
          | some p => buildParallelAwarenessPreamble invocation p
          | none => []) ++ invocation.prompt) = []
      · simp [hp]
      · simp [hp]
  · intro hne
    refine ⟨?_, ?_, ?_⟩
    · rw [hstart, if_pos (by simpa using fun hh => hne hh.symm)]
    · exact ⟨"Task ".toList, " belongs to subagent ".toList ++ s.subagentName ++
        ". Resume it with that same subagent.".toList, by
          rw [pinningErrorMsg]; simp [List.append_assoc]⟩
    · exact ⟨"Task ".toList ++ invocation.task_id.getD plannedTaskId ++
        " belongs to subagent ".toList,
        ". Resume it with that same subagent.".toList, by
          rw [pinningErrorMsg]; simp [List.append_assoc]⟩

theorem c3_witness :
    (("general".toList : Str) ∈ ["general".toList] ∧
      ∃ tbl, executeTaskInvocationStart
        [("tid1".toList, ⟨"tid1".toList, "general".toList,
          [HistoryItem.user ("old".toList)]⟩)]
        ["general".toList]
        ⟨"d".toList, "next step".toList, "general".toList, some ("tid1".toList)⟩
        ("planned".toList) none =
        .ok (tbl, ⟨"tid1".toList, "general".toList,
          [HistoryItem.user ("old".toList), HistoryItem.user ("next step".toList)]⟩)) ∧
    (("explore".toList : Str) ≠ ("general".toList : Str) ∧
      executeTaskInvocationStart
        [("tid1".toList, ⟨"tid1".toList, "general".toList,
          [HistoryItem.user ("old".toList)]⟩)]
        ["general".toList, "explore".toList]
        ⟨"d".toList, "next step".toList, "explore".toList, some ("tid1".toList)⟩
        ("planned".toList) none =
        .error (pinningErrorMsg ("tid1".toList) ("general".toList))) := by
  constructor
  · refine ⟨by decide, ?_⟩
    have h := (c3_session_pinning
      [("tid1".toList, ⟨"tid1".toList, "general".toList,
        [HistoryItem.user ("old".toList)]⟩)]
      ["general".toList]
      ⟨"d".toList, "next step".toList, "general".toList, some ("tid1".toList)⟩
      ("planned".toList) none
      ⟨"tid1".toList, "general".toList, [HistoryItem.user ("old".toList)]⟩
      (by decide) (by decide)).1 (by decide)
    have hs : sessionWithPrompt
        ⟨"tid1".toList, "general".toList, [HistoryItem.user ("old".toList)]⟩
        ⟨"d".toList, "next step".toList, "general".toList, some ("tid1".toList)⟩
        none =
        ⟨"tid1".toList, "general".toList,
          [HistoryItem.user ("old".toList), HistoryItem.user ("next step".toList)]⟩ := by
      rfl
    rw [hs] at h
    exact ⟨_, h.1⟩
  · refine ⟨by decide, ?_⟩
    exact ((c3_session_pinning
      [("tid1".toList, ⟨"tid1".toList, "general".toList,
        [HistoryItem.user ("old".toList)]⟩)]
      ["general".toList, "explore".toList]
      ⟨"d".toList, "next step".toList, "explore".toList, some ("tid1".toList)⟩
      ("planned".toList) none
      ⟨"tid1".toList, "general".toList, [HistoryItem.user ("old".toList)]⟩
      (by decide) (by decide)).2 (by decide)).1

theorem sanitizeLiveText_length_le (s : Str) (maxChars : Nat) :
    (sanitizeLiveText s maxChars).length ≤ maxChars + truncatedMarker.length := by
  simp only [sanitizeLiveText]
  split
  · omega
  · simp only [List.length_append, List.length_take]
    omega

theorem truncateSubagentToolContent_length_le (s : Str) (m : Nat) :
    (truncateSubagentToolContent s m).length ≤ m + truncatedForSubagentMarker.length := by
  simp only [truncateSubagentToolContent]
  split
  · omega
  · simp only [List.length_append, List.length_take]
    omega

theorem compactMapItem_compacted (item : HistoryItem) :
    subagentItemCompacted (compactMapItem item) := by
  cases item with
  | assistant content reasoning openai anthropic =>
    cases reasoning with
    | none =>
      simp only [compactMapItem, sanitizeSubagentHistoryItem, subagentItemCompacted]
      refine ⟨sanitizeLiveText_length_le _ _, ?_, True.intro, True.intro⟩
      intro r hr
      exact Option.noConfusion hr
    | some r0 =>
      by_cases he : r0.isEmpty
      · simp only [compactMapItem, sanitizeSubagentHistoryItem, if_pos he,
          subagentItemCompacted]
        refine ⟨sanitizeLiveText_length_le _ _, ?_, True.intro, True.intro⟩
        intro r hr
        exact Option.noConfusion hr
      · simp only [compactMapItem, sanitizeSubagentHistoryItem, if_neg he,
          subagentItemCompacted]
        refine ⟨sanitizeLiveText_length_le _ _, ?_, True.intro, True.intro⟩
        intro r hr
        cases hr
        exact sanitizeLiveText_length_le _ _
  | toolOutput content lines =>
    simp only [compactMapItem, sanitizeSubagentHistoryItem, subagentItemCompacted]
    exact truncateSubagentToolContent_length_le _ _
  | user c => trivial
  | tool a b => trivial
  | toolFailed a b => trivial
  | toolMalformed a => trivial
  | fileOutdated => trivial
  | fileUnreadable a => trivial
  | toolReject => trivial
  | notification a => trivial
  | compactionCheckpoint a => trivial

theorem evictLoop_of_not (keep : Bool) (l : List HistoryItem) (c : Nat)
    (h : ¬ ((MAX_SUBAGENT_HISTORY_ITEMS < l.length ∨ MAX_SUBAGENT_HISTORY_CHARS < c) ∧
      (if keep then 2 else 1) ≤ l.length)) :
    ∀ fuel, evictLoop keep fuel l c = l
  | 0 => rfl
  | fuel + 1 => by
    rw [evictLoop.eq_def]
    dsimp only []
    rw [if_neg h]

theorem evictLoop_splice_false : ∀ (fuel : Nat) (l : List HistoryItem) (c : Nat),
    ∃ k, evictLoop false fuel l c = l.drop k := by
  intro fuel
  induction fuel with
  | zero => exact fun l c => ⟨0, rfl⟩
  | succ fuel ih =>
    intro l c
    rw [evictLoop.eq_def]
    dsimp only []
    by_cases hc : (MAX_SUBAGENT_HISTORY_ITEMS < l.length ∨ MAX_SUBAGENT_HISTORY_CHARS < c) ∧
        (if (false : Bool) then 2 else 1) ≤ l.length
    · rw [if_pos hc]
      cases l with
      | nil => exact absurd hc.2 (by decide)
      | cons a rest =>
        obtain ⟨k, hk⟩ := ih rest (c - estimateHistoryItemSize a)
        exact ⟨k + 1, hk⟩
    · rw [if_neg hc]
      exact ⟨0, rfl⟩

theorem evictLoop_splice_true : ∀ (fuel : Nat) (l : List HistoryItem) (c : Nat),
    ∃ k, evictLoop true fuel l c = l.take 1 ++ (l.drop 1).drop k := by
  intro fuel
  induction fuel with
  | zero =>
    intro l c
    exact ⟨0, by rw [List.drop_zero]; exact (List.take_append_drop 1 l).symm⟩
  | succ fuel ih =>
    intro l c
    rw [evictLoop.eq_def]
    dsimp only []
    by_cases hc : (MAX_SUBAGENT_HISTORY_ITEMS < l.length ∨ MAX_SUBAGENT_HISTORY_CHARS < c) ∧
        (if (true : Bool) then 2 else 1) ≤ l.length
    · rw [if_pos hc]
      cases l with
      | nil => exact absurd hc.2 (by decide)
      | cons a rest =>
        cases rest with
        | nil => exact absurd hc.2 (by simp)
        | cons b rest2 =>
          obtain ⟨k, hk⟩ := ih (a :: rest2) (c - estimateHistoryItemSize b)
          exact ⟨k + 1, hk⟩
    · rw [if_neg hc]
      exact ⟨0, by rw [List.drop_zero]; exact (List.take_append_drop 1 l).symm⟩

theorem evictLoop_mem (keep : Bool) (fuel : Nat) (l : List HistoryItem) (c : Nat) :
    ∀ x ∈ evictLoop keep fuel l c, x ∈ l := by
  cases keep
  · obtain ⟨k, hk⟩ := evictLoop_splice_false fuel l c
    rw [hk]
    exact fun x hx => List.drop_subset _ _ hx
  · obtain ⟨k, hk⟩ := evictLoop_splice_true fuel l c
    rw [hk]
    intro x hx
    rcases List.mem_append.mp hx with h | h
    · exact List.take_subset _ _ h
    · exact List.drop_subset _ _ (List.drop_subset _ _ h)

theorem evictLoop_post (keep : Bool) : ∀ (fuel : Nat) (l : List HistoryItem) (c : Nat),
    l.length ≤ fuel → c = sizeOfHistory l →
    (evictLoop keep fuel l c).length ≤ MAX_SUBAGENT_HISTORY_ITEMS ∧
    (sizeOfHistory (evictLoop keep fuel l c) ≤ MAX_SUBAGENT_HISTORY_CHARS ∨
      (evictLoop keep fuel l c).length ≤ 1) := by
  intro fuel
  induction fuel with
  | zero =>
    intro l c hlen hc
    have hnil : l = [] := List.length_eq_zero.mp (Nat.le_zero.mp hlen)
    subst hnil
    exact ⟨by simp [evictLoop, MAX_SUBAGENT_HISTORY_ITEMS],
      Or.inr (by simp [evictLoop])⟩
  | succ fuel ih =>
    intro l c hlen hc
    rw [evictLoop.eq_def]
    dsimp only []
    by_cases hcond : (MAX_SUBAGENT_HISTORY_ITEMS < l.length ∨ MAX_SUBAGENT_HISTORY_CHARS < c) ∧
        (if keep then 2 else 1) ≤ l.length
    · rw [if_pos hcond]
      cases keep
      · cases l with
        | nil => exact absurd hcond.2 (by decide)
        | cons a rest =>
          have hc' : c - estimateHistoryItemSize a = sizeOfHistory rest := by
            rw [hc]
            simp only [sizeOfHistory]
            omega
          have hlen' : rest.length ≤ fuel := by
            simp only [List.length_cons] at hlen
            omega
          exact ih rest _ hlen' hc'
      · cases l with
        | nil => exact absurd hcond.2 (by decide)
        | cons a rest =>
          cases rest with
          | nil => exact absurd hcond.2 (by simp)
          | cons b rest2 =>
            have hc' : c - estimateHistoryItemSize b = sizeOfHistory (a :: rest2) := by
              rw [hc]
              simp only [sizeOfHistory]
              omega
            have hlen' : (a :: rest2).length ≤ fuel := by
              simp only [List.length_cons] at hlen ⊢
              omega
            exact ih (a :: rest2) _ hlen' hc'
    · rw [if_neg hcond]
      rw [hc] at hcond
      simp only [MAX_SUBAGENT_HISTORY_ITEMS, MAX_SUBAGENT_HISTORY_CHARS] at hcond ⊢
      rcases not_and_or.mp hcond with h | h
      · push_neg at h
        exact ⟨h.1, Or.inl h.2⟩
      · cases keep
        · rw [if_neg Bool.false_ne_true] at h
          exact ⟨by omega, Or.inr (by omega)⟩
        · rw [if_pos rfl] at h
          exact ⟨by omega, Or.inr (by omega)⟩

theorem dropWhile_replicate_not (p : Char → Bool) (c : Char) (h : p c = false) (n : Nat) :
    List.dropWhile p (List.replicate n c) = List.replicate n c := by
  cases n with
  | zero => rfl
  | succ n => simp [List.replicate, List.dropWhile_cons, h]

theorem jsTrim_replicate (n : Nat) (c : Char) (h : isWsp c = false) :
    jsTrim (List.replicate n c) = List.replicate n c := by
  simp only [jsTrim]
  rw [dropWhile_replicate_not _ _ h, List.reverse_replicate,
      dropWhile_replicate_not _ _ h, List.reverse_replicate]

theorem estimate_user_eq (c : Str) :
    estimateHistoryItemSize (HistoryItem.user c) = c.length := by
  simp [estimateHistoryItemSize]

theorem estimate_assistant_none_eq (c : Str) :
    estimateHistoryItemSize (HistoryItem.assistant c none none none) = c.length := by
  simp [estimateHistoryItemSize]

theorem sizeOfHistory_single (item : HistoryItem) :
    sizeOfHistory [item] = estimateHistoryItemSize item := by
  simp [sizeOfHistory]

/-- C8: eviction never runs below the pinned-seed floor, so an oversized
pinned user seed can leave the character ceiling violated (first input);
and the per-item "cap" includes the truncation marker, so an assistant
entry can come out 24 016 characters long, above the 24 000 claimed
(second input). -/
theorem c8_counterexample :
    (compactSubagentHistory [HistoryItem.user (List.replicate 140001 'a')] =
        [HistoryItem.user (List.replicate 140001 'a')] ∧
      MAX_SUBAGENT_HISTORY_CHARS <
        sizeOfHistory (compactSubagentHistory
          [HistoryItem.user (List.replicate 140001 'a')])) ∧
    (compactSubagentHistory
        [HistoryItem.assistant (List.replicate 30000 'a') none none none] =
        [HistoryItem.assistant (List.replicate 24000 'a' ++ truncatedMarker)
          none none none] ∧
      MAX_SUBAGENT_ASSISTANT_CONTENT_CHARS <
        (List.replicate 24000 'a' ++ truncatedMarker).length) := by
  have hmarker : truncatedMarker.length = 16 := by decide
  constructor
  · have htrim : compactSubagentHistory [HistoryItem.user (List.replicate 140001 'a')] =
        evictLoop true 1 [HistoryItem.user (List.replicate 140001 'a')]
          (sizeOfHistory [HistoryItem.user (List.replicate 140001 'a')]) := rfl
    have hsz : sizeOfHistory [HistoryItem.user (List.replicate 140001 'a')] = 140001 := by
      rw [sizeOfHistory_single, estimate_user_eq, List.length_replicate]
    have hres : compactSubagentHistory [HistoryItem.user (List.replicate 140001 'a')] =
        [HistoryItem.user (List.replicate 140001 'a')] := by
      rw [htrim]
      exact evictLoop_of_not _ _ _ (fun hx => absurd hx.2 (by decide)) 1
    refine ⟨hres, ?_⟩
    rw [hres, hsz]
    decide
  · have hs : sanitizeLiveText (List.replicate 30000 'a')
        MAX_SUBAGENT_ASSISTANT_CONTENT_CHARS =
        List.replicate 24000 'a' ++ truncatedMarker := by
      simp only [sanitizeLiveText, MAX_SUBAGENT_ASSISTANT_CONTENT_CHARS]
      rw [jsTrim_replicate 30000 'a' rfl]
      rw [if_neg (by rw [List.length_replicate]; omega)]
      rw [List.take_replicate]
      rw [Nat.min_eq_left (by omega)]
    have htrim : compactSubagentHistory
        [HistoryItem.assistant (List.replicate 30000 'a') none none none] =
        evictLoop false 1
          [HistoryItem.assistant (sanitizeLiveText (List.replicate 30000 'a')
            MAX_SUBAGENT_ASSISTANT_CONTENT_CHARS) none none none]
          (sizeOfHistory
            [HistoryItem.assistant (sanitizeLiveText (List.replicate 30000 'a')
              MAX_SUBAGENT_ASSISTANT_CONTENT_CHARS) none none none]) := rfl
    have hsize : sizeOfHistory
        [HistoryItem.assistant (List.replicate 24000 'a' ++ truncatedMarker)
          none none none] = 24016 := by
      rw [sizeOfHistory_single, estimate_assistant_none_eq, List.length_append,
        List.length_replicate, hmarker]
    have hres : compactSubagentHistory
        [HistoryItem.assistant (List.replicate 30000 'a') none none none] =
        [HistoryItem.assistant (List.replicate 24000 'a' ++ truncatedMarker)
          none none none] := by
      rw [htrim, hs, hsize]
      exact evictLoop_of_not _ _ _ (by decide) 1
    refine ⟨hres, ?_⟩
    rw [List.length_append, List.length_replicate, hmarker]
    decide

/-- C8 (amended): compaction maps each entry through
sanitize-and-truncate (so assistant text and reasoning are at most the
24 000-char cap plus the 16-char marker with provider metadata stripped,
and tool-output bodies at most the cap plus the 38-char subagent marker);
the result is a splice of the mapped list keeping the pinned first user
entry (when present) and dropping the oldest non-pinned entries; the
80-item ceiling always holds, and the 140 000-character ceiling holds
unless at most one (pinned) entry remains. -/
theorem c8_compaction (history : List HistoryItem) :
    (if keepFirstUserOf (history.map compactMapItem) then
        ∃ k, compactSubagentHistory history =
          (history.map compactMapItem).take 1 ++
            ((history.map compactMapItem).drop 1).drop k
      else
        ∃ k, compactSubagentHistory history = (history.map compactMapItem).drop k) ∧
    (compactSubagentHistory history).length ≤ MAX_SUBAGENT_HISTORY_ITEMS ∧
    (sizeOfHistory (compactSubagentHistory history) ≤ MAX_SUBAGENT_HISTORY_CHARS ∨
      (compactSubagentHistory history).length ≤ 1) ∧
    ∀ item, item ∈ compactSubagentHistory history → subagentItemCompacted item := by
  have hL : compactSubagentHistory history =
      evictLoop (keepFirstUserOf (history.map compactMapItem))
        (history.map compactMapItem).length (history.map compactMapItem)
        (sizeOfHistory (history.map compactMapItem)) := rfl
  refine ⟨?_, ?_, ?_, ?_⟩
  · cases hk : keepFirstUserOf (history.map compactMapItem)
    · rw [if_neg Bool.false_ne_true]
      rw [hL, hk]
      exact evictLoop_splice_false _ _ _
    · rw [if_pos rfl]
      rw [hL, hk]
      exact evictLoop_splice_true _ _ _
  · rw [hL]
    exact (evictLoop_post _ _ _ _ (Nat.le_refl _) rfl).1
  · rw [hL]
    exact (evictLoop_post _ _ _ _ (Nat.le_refl _) rfl).2
  · intro item hmem
    rw [hL] at hmem
    have hmem' := evictLoop_mem _ _ _ _ item hmem
    obtain ⟨y, _, hy⟩ := List.mem_map.mp hmem'
    rw [← hy]
    exact compactMapItem_compacted y

theorem c8_witness :
    HistoryItem.user ("seed".toList) ∈
      compactSubagentHistory [HistoryItem.user ("seed".toList)] ∧
    subagentItemCompacted (HistoryItem.user ("seed".toList)) := by
  refine ⟨by decide, ?_⟩
  exact (c8_compaction [HistoryItem.user ("seed".toList)]).2.2.2 _ (by decide)

theorem getD_mem_of_lt {α : Type} (d : α) : ∀ (l : List α) (k : Nat),
    k < l.length → l.getD k d ∈ l := by
  intro l
  induction l with
  | nil =>
    intro k hk
    simp at hk
  | cons a rest ih =>
    intro k hk
    cases k with
    | zero =>
      rw [List.getD_cons_zero]
      exact List.mem_cons_self _ _
    | succ k =>
      rw [List.getD_cons_succ]
      exact List.mem_cons_of_mem _ (ih k (by simpa using hk))

theorem headD_eq_getD {α : Type} (l : List α) (d : α) (h : l ≠ []) :
    l.headD d = l.getD 0 d := by
  cases l with
  | nil => exact absurd rfl h
  | cons a rest => rfl

theorem jsIndexOf_not_mem (x : Str) : ∀ (l : List Str), x ∉ l → jsIndexOf l x = -1
  | [], _ => rfl
  | y :: rest, h => by
    have hxy : y ≠ x := fun he => h (he ▸ List.mem_cons_self _ _)
    have hrec : jsIndexOfGo x rest = -1 :=
      jsIndexOf_not_mem x rest (fun hm => h (List.mem_cons_of_mem _ hm))
    show jsIndexOfGo x (y :: rest) = -1
    simp only [jsIndexOfGo, if_neg hxy, hrec]
    decide

theorem jsIndexOf_getD : ∀ (l : List Str), l.Nodup → ∀ k, k < l.length →
    jsIndexOf l (l.getD k []) = (k : Int) := by
  intro l
  induction l with
  | nil =>
    intro _ k hk
    simp at hk
  | cons a rest ih =>
    intro hnd k hk
    cases k with
    | zero =>
      rw [List.getD_cons_zero]
      show jsIndexOfGo a (a :: rest) = 0
      simp [jsIndexOfGo]
    | succ k =>
      rw [List.getD_cons_succ]
      have hk' : k < rest.length := by simpa using hk
      have hmem : rest.getD k [] ∈ rest := getD_mem_of_lt _ rest k hk'
      have hne2 : a ≠ rest.getD k [] :=
        fun he => (List.nodup_cons.mp hnd).1 (he ▸ hmem)
      have hr : jsIndexOfGo (rest.getD k []) rest = (k : Int) :=
        ih (List.nodup_cons.mp hnd).2 k hk'
      show jsIndexOfGo (rest.getD k []) (a :: rest) = ((k + 1 : Nat) : Int)
      simp only [jsIndexOfGo, if_neg hne2, hr]
      rw [if_neg (by omega)]
      omega

theorem focusNextTask_orders (s : UiFocusState) :
    (focusNextTask s).liveTaskObservationOrder = s.liveTaskObservationOrder ∧
    (focusNextTask s).taskObservationOrder = s.taskObservationOrder := by
  rcases s with ⟨lv, tk, f⟩
  cases f with
  | main =>
    simp only [focusNextTask]
    split
    · exact ⟨rfl, rfl⟩
    · exact ⟨rfl, rfl⟩
  | task tid =>
    simp only [focusNextTask]
    split
    · exact ⟨rfl, rfl⟩
    · split
      · exact ⟨rfl, rfl⟩
      · split
        · exact ⟨rfl, rfl⟩
        · exact ⟨rfl, rfl⟩

theorem activeTaskOrder_next (s : UiFocusState) :
    activeTaskOrder (focusNextTask s) = activeTaskOrder s := by
  have h := focusNextTask_orders s
  simp only [activeTaskOrder, h.1, h.2]

theorem focusNextTask_from_main (s : UiFocusState) (hf : s.focus = Focus.main)
    (hne : activeTaskOrder s ≠ []) :
    (focusNextTask s).focus = Focus.task ((activeTaskOrder s).headD []) := by
  simp only [focusNextTask]
  rw [if_neg (by simpa using hne), hf]

theorem focusNextTask_at (s : UiFocusState) (k : Nat)
    (hnodup : (activeTaskOrder s).Nodup) (hk : k < (activeTaskOrder s).length)
    (hf : s.focus = Focus.task ((activeTaskOrder s).getD k [])) :
    (focusNextTask s).focus =
      if k = (activeTaskOrder s).length - 1 then Focus.main
      else Focus.task ((activeTaskOrder s).getD (k + 1) []) := by
  have hne0 : ¬((activeTaskOrder s).length = 0) := by omega
  simp only [focusNextTask]
  rw [if_neg hne0, hf]
  dsimp only []
  rw [jsIndexOf_getD _ hnodup k hk]
  rw [if_neg (by omega : ¬((k : Int) < 0))]
  by_cases hlast : k = (activeTaskOrder s).length - 1
  · rw [if_pos hlast,
      if_pos (by omega : (k : Int) = ((activeTaskOrder s).length : Int) - 1)]
  · rw [if_neg hlast,
      if_neg (by omega : ¬((k : Int) = ((activeTaskOrder s).length : Int) - 1))]
    rw [show ((k : Int)).toNat + 1 = k + 1 from by omega]

theorem focusNextTask_snap (s : UiFocusState) (tid : Str)
    (hne : activeTaskOrder s ≠ []) (hf : s.focus = Focus.task tid)
    (hnm : tid ∉ activeTaskOrder s) :
    (focusNextTask s).focus = Focus.task ((activeTaskOrder s).getLastD []) := by
  simp only [focusNextTask]
  rw [if_neg (by simpa using hne), hf]
  dsimp only []
  rw [jsIndexOf_not_mem tid _ hnm]
  rw [if_pos (by decide : (-1 : Int) < 0)]

theorem focusPrevTask_snap (s : UiFocusState) (tid : Str)
    (hne : activeTaskOrder s ≠ []) (hf : s.focus = Focus.task tid)
    (hnm : tid ∉ activeTaskOrder s) :
    (focusPrevTask s).focus = Focus.task ((activeTaskOrder s).getLastD []) := by
  simp only [focusPrevTask]
  rw [if_neg (by simpa using hne), hf]
  dsimp only []
  rw [jsIndexOf_not_mem tid _ hnm]
  rw [if_pos (by decide : (-1 : Int) < 0)]

/-- C7: with a single live task the active ordering has one entry, yet one
`focusNextTask` step from `main` lands on the task, not back on `main`:
`taskCount` steps do not return to `main` (it takes `taskCount + 1`). -/
theorem c7_counterexample :
    activeTaskOrder ⟨["t1".toList], [], Focus.main⟩ = ["t1".toList] ∧
    (iterateNext 1 ⟨["t1".toList], [], Focus.main⟩).focus ≠ Focus.main := by
  decide

/-- C7 (amended): from `main`, with a duplicate-free non-empty active
ordering of `taskCount` ids, step `k + 1` of `focusNextTask` focuses the
`k`-th id of the active ordering (the live ordering whenever live tasks
exist), and step `taskCount + 1` — one more than the claim's `taskCount` —
returns focus to `main`; a focused id absent from the active ordering
snaps to the last id in one `focusNextTask` or `focusPrevTask` step. -/
theorem c7_focus_cycle (s : UiFocusState) (hfocus : s.focus = Focus.main)
    (hnodup : (activeTaskOrder s).Nodup) (hne : activeTaskOrder s ≠ []) :
    (∀ k, k < (activeTaskOrder s).length →
      (iterateNext (k + 1) s).focus = Focus.task ((activeTaskOrder s).getD k [])) ∧
    (iterateNext ((activeTaskOrder s).length + 1) s).focus = Focus.main ∧
    (s.liveTaskObservationOrder ≠ [] →
      activeTaskOrder s = s.liveTaskObservationOrder) ∧
    (∀ tid, tid ∉ activeTaskOrder s →
      (focusNextTask { s with focus := Focus.task tid }).focus =
        Focus.task ((activeTaskOrder s).getLastD []) ∧
      (focusPrevTask { s with focus := Focus.task tid }).focus =
        Focus.task ((activeTaskOrder s).getLastD [])) := by
  have key : ∀ k, k < (activeTaskOrder s).length →
      (iterateNext (k + 1) s).focus = Focus.task ((activeTaskOrder s).getD k []) ∧
      activeTaskOrder (iterateNext (k + 1) s) = activeTaskOrder s := by
    intro k
    induction k with
    | zero =>
      intro hk
      constructor
      · show (focusNextTask s).focus = _
        rw [focusNextTask_from_main s hfocus hne, headD_eq_getD _ _ hne]
      · show activeTaskOrder (focusNextTask s) = _
        exact activeTaskOrder_next s
    | succ k ih =>
      intro hk
      obtain ⟨hf, ho⟩ := ih (Nat.lt_of_succ_lt hk)
      have hstep := focusNextTask_at (iterateNext (k + 1) s) k
        (by rw [ho]; exact hnodup) (by rw [ho]; exact Nat.lt_of_succ_lt hk)
        (by rw [ho]; exact hf)
      rw [ho] at hstep
      have hkne : k ≠ (activeTaskOrder s).length - 1 := by omega
      rw [if_neg hkne] at hstep
      refine ⟨hstep, ?_⟩
      show activeTaskOrder (focusNextTask (iterateNext (k + 1) s)) = _
      rw [activeTaskOrder_next, ho]
  have hlen : 1 ≤ (activeTaskOrder s).length := by
    cases h0 : activeTaskOrder s with
    | nil => exact absurd h0 hne
    | cons a rest => simp
  refine ⟨fun k hk => (key k hk).1, ?_, ?_, ?_⟩
  · obtain ⟨hf, ho⟩ := key ((activeTaskOrder s).length - 1) (by omega)
    have heq : (activeTaskOrder s).length + 1 =
        ((activeTaskOrder s).length - 1 + 1) + 1 := by omega
    rw [heq]
    show (focusNextTask (iterateNext ((activeTaskOrder s).length - 1 + 1) s)).focus =
      Focus.main
    have hstep := focusNextTask_at (iterateNext ((activeTaskOrder s).length - 1 + 1) s)
      ((activeTaskOrder s).length - 1)
      (by rw [ho]; exact hnodup) (by rw [ho]; omega) (by rw [ho]; exact hf)
    rw [ho] at hstep
    rw [if_pos rfl] at hstep
    exact hstep
  · intro hlive
    simp only [activeTaskOrder]
    rw [if_pos]
    simpa [List.length_pos] using hlive
  · intro tid hnm
    have hact : activeTaskOrder { s with focus := Focus.task tid } =
        activeTaskOrder s := rfl
    constructor
    · rw [← hact]
      exact focusNextTask_snap _ tid (by rw [hact]; exact hne) rfl
        (by rw [hact]; exact hnm)
    · rw [← hact]
      exact focusPrevTask_snap _ tid (by rw [hact]; exact hne) rfl
        (by rw [hact]; exact hnm)

theorem c7_witness :
    (iterateNext 1 ⟨["t1".toList, "t2".toList], ["tf".toList], Focus.main⟩).focus =
      Focus.task ("t1".toList) ∧
    (iterateNext 3 ⟨["t1".toList, "t2".toList], ["tf".toList], Focus.main⟩).focus =
      Focus.main ∧
    activeTaskOrder ⟨["t1".toList, "t2".toList], ["tf".toList], Focus.main⟩ =
      ["t1".toList, "t2".toList] ∧
    (focusNextTask ⟨["t1".toList, "t2".toList], ["tf".toList],
        Focus.task ("zz".toList)⟩).focus = Focus.task ("t2".toList) := by
  have h := c7_focus_cycle ⟨["t1".toList, "t2".toList], ["tf".toList], Focus.main⟩
    rfl (by decide) (by decide)
  exact ⟨h.1 0 (by decide), h.2.1, h.2.2.1 (by decide),
    (h.2.2.2 ("zz".toList) (by decide)).1⟩

end Octo
